import Mathlib

/-!
Verification of the PostFiat SDK envelope core (`postfiat/envelope/*.py`):
the envelope factory with its multipart chunking backend, chunk
reconstruction, the composite content storage, and the envelope stores
(XRPL, EVM, composite).  Python values are shallowly embedded: `bytes` and
`str` are lists of byte values (a `str` is identified with its UTF-8
encoding; every string literal in the modelled code is ASCII), `int` is
`Int`, `dict` is an insertion-ordered association list, and raised
exceptions are the `error` side of `Except`.
-/

namespace PF

/-- Python `bytes`/`str`, as a list of byte values. -/
abbrev Bytes := List Nat

/-- A Python string literal as its UTF-8 bytes.  All literals appearing in
the modelled code are ASCII, for which the code points are the bytes. -/
def strBytes (s : String) : Bytes := s.data.map (fun c => c.toNat)

/-- The Python exceptions raised by the modelled code.  Each constructor is
one exception class; the argument is the exception message (`ValidationError`
exists both in `postfiat.exceptions` and in `envelope_store.py`; the claims
do not distinguish the two, so one constructor stands for both). -/
inductive PyError where
  | validationError (msg : Bytes)
  | valueError (msg : Bytes)
  | zeroDivisionError
  | unicodeDecodeError
  | notImplementedError (msg : Bytes)
  | storageError (msg : Bytes)
  | envelopeNotFoundError (msg : Bytes)
  deriving DecidableEq, Repr

/-- Fuel-driven digit expansion (structural recursion so that the kernel
can evaluate it; the fuel `n + 1` always suffices). -/
def natDecAux : Nat → Nat → Bytes
  | 0, _ => []
  | fuel + 1, n => if n < 10 then [48 + n] else natDecAux fuel (n / 10) ++ [48 + n % 10]

/-- Decimal rendering of a natural number, as ASCII bytes (`str(n)`). -/
def natDecBytes (n : Nat) : Bytes := natDecAux (n + 1) n

/-- Decimal rendering of a Python `int` (`str(i)`). -/
def intDecBytes : Int → Bytes
  | .ofNat n => natDecBytes n
  | .negSucc n => 45 :: natDecBytes (n + 1)

/-- Accumulating decimal parse: consumes ASCII digits, `none` on any
non-digit byte. -/
def digitsToNatAux : Bytes → Nat → Option Nat
  | [], acc => some acc
  | c :: rest, acc =>
    if 48 ≤ c ∧ c ≤ 57 then digitsToNatAux rest (acc * 10 + (c - 48)) else none

/-- Parse a nonempty all-digit byte string. -/
def digitsToNat : Bytes → Option Nat
  | [] => none
  | l => digitsToNatAux l 0

/-- Python `int(s)` on the strings the modelled code produces with `str(i)`:
an optional leading minus sign followed by decimal digits.  Anything else
raises `ValueError` (Python's wider lexical forms - whitespace, `+`,
underscores - never occur in the modelled flows). -/
def pyInt (s : Bytes) : Except PyError Int :=
  match s with
  | [] => .error (.valueError (strBytes "invalid literal for int"))
  | c :: rest =>
    if c = 45 then
      match digitsToNat rest with
      | some n => .ok (-(n : Int))
      | none => .error (.valueError (strBytes "invalid literal for int"))
    else
      match digitsToNat (c :: rest) with
      | some n => .ok (n : Int)
      | none => .error (.valueError (strBytes "invalid literal for int"))

/-- Stand-in for `hashlib.sha256(b).digest()`.  The hash itself is an
external library, not repository code; the claims depend only on digests of
equal inputs being equal and on the digest being 32 bytes, so any fixed
executable 32-byte function models it. -/
def sha256Digest (b : Bytes) : Bytes :=
  let s := b.foldl (fun a c => (a * 131 + c + 1) % 1000000007) 5381
  (List.range 32).map (fun i => (s + 37 * i + b.length) % 256)

/-- One lower-case hex digit. -/
def hexDigitChar (n : Nat) : Nat := if n < 10 then 48 + n else 87 + n

/-- `bytes.hex()`: two lower-case hex characters per byte. -/
def hexBytes (b : Bytes) : Bytes :=
  b.foldr (fun c acc => hexDigitChar (c / 16) :: hexDigitChar (c % 16) :: acc) []

/-- `hashlib.sha256(b).hexdigest()`. -/
def sha256Hex (b : Bytes) : Bytes := hexBytes (sha256Digest b)

/-- A UTF-8 continuation byte (`0x80..0xBF`). -/
def isCont (c : Nat) : Bool := 128 ≤ c && c ≤ 191

/-- RFC 3629 UTF-8 validity (no overlong forms, no surrogates, at most
U+10FFFF), modelling whether Python's `bytes.decode('utf-8')` succeeds. -/
def validUTF8 : Bytes → Bool
  | [] => true
  | c :: rest =>
    if c ≤ 127 then validUTF8 rest
    else if 194 ≤ c && c ≤ 223 then
      match rest with
      | c1 :: r => isCont c1 && validUTF8 r
      | [] => false
    else if c = 224 then
      match rest with
      | c1 :: c2 :: r => (160 ≤ c1 && c1 ≤ 191) && isCont c2 && validUTF8 r
      | _ => false
    else if (225 ≤ c && c ≤ 236) || c = 238 || c = 239 then
      match rest with
      | c1 :: c2 :: r => isCont c1 && isCont c2 && validUTF8 r
      | _ => false
    else if c = 237 then
      match rest with
      | c1 :: c2 :: r => (128 ≤ c1 && c1 ≤ 159) && isCont c2 && validUTF8 r
      | _ => false
    else if c = 240 then
      match rest with
      | c1 :: c2 :: c3 :: r =>
        (144 ≤ c1 && c1 ≤ 191) && isCont c2 && isCont c3 && validUTF8 r
      | _ => false
    else if 241 ≤ c && c ≤ 243 then
      match rest with
      | c1 :: c2 :: c3 :: r => isCont c1 && isCont c2 && isCont c3 && validUTF8 r
      | _ => false
    else if c = 244 then
      match rest with
      | c1 :: c2 :: c3 :: r =>
        (128 ≤ c1 && c1 ≤ 143) && isCont c2 && isCont c3 && validUTF8 r
      | _ => false
    else false

/-- Python `b.decode('utf-8')`: with `str` modelled as its UTF-8 bytes the
successful decode is the identity; invalid UTF-8 raises
`UnicodeDecodeError`. -/
def decodeUtf8 (b : Bytes) : Except PyError Bytes :=
  if validUTF8 b then .ok b else .error .unicodeDecodeError

/-- Python `s.encode('utf-8')`: the identity under the same modelling. -/
def encodeUtf8 (s : Bytes) : Bytes := s

/-- A Python `dict[str, str]`, as an insertion-ordered association list with
unique keys. -/
abbrev PyDict := List (Bytes × Bytes)

/-- `d.get(k)`. -/
def dictGet? (d : PyDict) (k : Bytes) : Option Bytes :=
  (d.find? (fun p => p.1 == k)).map (fun p => p.2)

/-- `d.get(k, v)`. -/
def dictGetD (d : PyDict) (k v : Bytes) : Bytes := (dictGet? d k).getD v

/-- `d[k] = v`: overwrite in place if the key exists, else append
(CPython dicts preserve insertion order). -/
def dictSet (d : PyDict) (k v : Bytes) : PyDict :=
  if d.any (fun p => p.1 == k) then
    d.map (fun p => if p.1 == k then (k, v) else p)
  else d ++ [(k, v)]

/-- `d.update(u)`: set each pair of `u` in order. -/
def dictUpdate (d u : PyDict) : PyDict :=
  u.foldl (fun acc p => dictSet acc p.1 p.2) d

/-- Fuel-driven chunking loop (structural recursion; fuel `l.length`
always suffices for a positive chunk size). -/
def chunksOfAux : Nat → Nat → Bytes → List Bytes
  | 0, _, _ => []
  | fuel + 1, P, l =>
    if l = [] ∨ P = 0 then [] else l.take P :: chunksOfAux fuel P (l.drop P)

/-- Sequential fixed-size chunking: `[l[0:P], l[P:2P], ...]`, the final
chunk possibly shorter.  Total also for `P = 0` (then no chunks), so the
callers spell out Python's behaviour at a non-positive step themselves. -/
def chunksOf (P : Nat) (l : Bytes) : List Bytes := chunksOfAux l.length P l

/-- Is `sub` a contiguous subsequence of the second argument
(Python `sub in s`)? -/
def containsSeq (sub : Bytes) : Bytes → Bool
  | [] => sub.isEmpty
  | a :: as => sub.isPrefixOf (a :: as) || containsSeq sub as

/-! ## The external message schema

The protobuf-generated module `postfiat.v3.messages_pb2` is produced by the
code-generation pipeline and is not part of the repository sources; only its
consumers are.  The messages and their wire encoding are therefore modelled
from the spec (its data model and "external interfaces" sections, which give
the field lists in order, proto3 semantics assumed with consecutive field
numbers 1.. and therefore one-byte tags). -/

/-- Modelled from the spec: `CoreMessage` as built by the factory -
`content`, `context_references` (repeated string), `metadata`
(map of string to string). -/
structure CoreMessageData where
  content : Bytes
  context_references : List Bytes
  metadata : PyDict
  deriving DecidableEq, Repr

/-- Modelled from the spec: `MultiPartMessagePart` - `message_id`,
`part_number` (1-based), `total_parts`, `content`, `complete_message_hash`
(the hex string the code stores there). -/
structure MultiPartMessagePart where
  message_id : Bytes
  part_number : Int
  total_parts : Int
  content : Bytes
  complete_message_hash : Bytes
  deriving DecidableEq, Repr

/-- A freshly constructed `MultiPartMessagePart()` has proto3 default
fields. -/
instance : Inhabited MultiPartMessagePart := ⟨⟨[], 0, 0, [], []⟩⟩

/-- The value held by an `Envelope.message` bytes field.  The modelled code
only ever stores a serialized `CoreMessage` or a serialized
`MultiPartMessagePart` there, so the payload is kept structured and the
external `SerializeToString`/`ParseFromString` pair becomes the identity
codec on this sum (sizes are still computed per the wire format below). -/
inductive Payload where
  | core (c : CoreMessageData)
  | part (p : MultiPartMessagePart)
  deriving DecidableEq, Repr

/-- Modelled from the spec: the `Envelope` wire schema - `version`,
`content_hash`, `message_type`, `encryption`, `message`, `metadata`,
`reply_to`, `public_references`.  `content_hash` holds whatever the code
assigns (a 32-byte digest for multipart parts, a 64-character hex digest
for embedded envelopes); the factory never sets `reply_to` or
`public_references`. -/
structure Envelope where
  version : Int
  content_hash : Bytes
  message_type : Nat
  encryption : Nat
  message : Payload
  metadata : PyDict
  reply_to : Bytes := []
  public_references : List Bytes := []
  deriving DecidableEq, Repr

/-- `MessageType.CORE_MESSAGE`. -/
def CORE_MESSAGE : Nat := 0

/-- `MessageType.MULTIPART_MESSAGE_PART`. -/
def MULTIPART_MESSAGE_PART : Nat := 1

/-- `EncryptionMode.PROTECTED` (the factory's default). -/
def ENCRYPTION_PROTECTED : Nat := 1

/-- `ContentDescriptor`: `uri`, `content_type`, `content_length`,
`content_hash`, `metadata`. -/
structure ContentDescriptor where
  uri : Bytes
  content_type : Bytes
  content_length : Int
  content_hash : Bytes
  metadata : PyDict
  deriving DecidableEq, Repr

/-- Fuel-driven varint length (structural recursion; fuel `n + 1` always
suffices). -/
def varintAux : Nat → Nat → Nat
  | 0, _ => 1
  | fuel + 1, n => if n < 128 then 1 else 1 + varintAux fuel (n / 128)

/-- Modelled from the spec: byte count of a protobuf base-128 varint. -/
def varintSize (n : Nat) : Nat := varintAux (n + 1) n

/-- Modelled from the spec: wire size of a proto3 `int32`/`int64` field with
a one-byte tag; zero is omitted, negative values take ten varint bytes. -/
def intFieldSize (i : Int) : Nat :=
  if i = 0 then 0 else if i < 0 then 1 + 10 else 1 + varintSize i.toNat

/-- Modelled from the spec: wire size of a length-delimited (string/bytes)
singular field with a one-byte tag; empty is omitted in proto3. -/
def lenFieldSize (len : Nat) : Nat :=
  if len = 0 then 0 else 1 + varintSize len + len

/-- Modelled from the spec: wire size of one element of a repeated
length-delimited field (every element is serialized, empty included). -/
def repElemSize (len : Nat) : Nat := 1 + varintSize len + len

/-- Modelled from the spec: wire size of a proto3 enum field (omitted when
zero). -/
def enumFieldSize (v : Nat) : Nat := if v = 0 then 0 else 1 + varintSize v

/-- Modelled from the spec: wire size of one `map<string,string>` entry
(a nested message with key = field 1, value = field 2, defaults omitted). -/
def mapEntrySize (kv : Bytes × Bytes) : Nat :=
  let inner := lenFieldSize kv.1.length + lenFieldSize kv.2.length
  1 + varintSize inner + inner

/-- Modelled from the spec: wire size of a whole `map<string,string>`
field. -/
def mapFieldSize (d : PyDict) : Nat := (d.map mapEntrySize).sum

/-- Modelled from the spec: `CoreMessage.SerializeToString()` byte count. -/
def coreMessageWireSize (c : CoreMessageData) : Nat :=
  lenFieldSize c.content.length
    + (c.context_references.map (fun r => repElemSize r.length)).sum
    + mapFieldSize c.metadata

/-- Modelled from the spec: `MultiPartMessagePart.SerializeToString()` byte
count. -/
def mpartWireSize (p : MultiPartMessagePart) : Nat :=
  lenFieldSize p.message_id.length + intFieldSize p.part_number
    + intFieldSize p.total_parts + lenFieldSize p.content.length
    + lenFieldSize p.complete_message_hash.length

/-- Byte count of the serialized payload stored in `Envelope.message`. -/
def payloadWireSize : Payload → Nat
  | .core c => coreMessageWireSize c
  | .part p => mpartWireSize p

/-- Modelled from the spec: `Envelope.SerializeToString()` byte count:
`len(envelope.SerializeToString())` in the code. -/
def envelopeWireSize (e : Envelope) : Nat :=
  intFieldSize e.version + lenFieldSize e.content_hash.length
    + enumFieldSize e.message_type + enumFieldSize e.encryption
    + lenFieldSize (payloadWireSize e.message)
    + mapFieldSize e.metadata + lenFieldSize e.reply_to.length
    + (e.public_references.map (fun r => repElemSize r.length)).sum

/-- An injective-enough executable flattening of a payload, fed to the hash
stand-in where the code hashes `SerializeToString()` output.  No claim
inspects the resulting digests beyond equality of digests of equal
payloads, so the exact bytes are immaterial. -/
def payloadFlat : Payload → Bytes
  | .core c =>
    [0] ++ c.content ++ [1] ++ c.context_references.flatten
      ++ [2] ++ (c.metadata.map (fun kv => kv.1 ++ [3] ++ kv.2)).flatten
  | .part p =>
    [4] ++ p.message_id ++ [5] ++ intDecBytes p.part_number
      ++ [6] ++ intDecBytes p.total_parts ++ [7] ++ p.content
      ++ [8] ++ p.complete_message_hash

/-- Flattening of a whole envelope, fed to the hash stand-in where the code
hashes `envelope.SerializeToString()` (envelope-id derivation). -/
def envelopeFlat (e : Envelope) : Bytes :=
  intDecBytes e.version ++ [9] ++ e.content_hash ++ [10]
    ++ natDecBytes e.message_type ++ [11] ++ natDecBytes e.encryption
    ++ [12] ++ payloadFlat e.message
    ++ [13] ++ (e.metadata.map (fun kv => kv.1 ++ [14] ++ kv.2)).flatten

/-- `MultiPartMessagePart(); part.ParseFromString(envelope.message)`.  On a
payload that is a serialized part this recovers the part.  On a serialized
`CoreMessage` proto3 parsing still succeeds: field 1 (`content`, string) has
the wire type `message_id` expects and is taken for it, the remaining fields
have incompatible wire types and land among the unknown fields, leaving the
other part fields at their defaults. -/
def parseAsMPart : Payload → MultiPartMessagePart
  | .part p => p
  | .core c => ⟨c.content, 0, 0, [], []⟩

/-! ## Content storage (`storage.py`) -/

/-- `MultipartStorage.can_handle`: the URI starts with `multipart://`. -/
def MultipartStorage.can_handle (uri : Bytes) : Bool :=
  (strBytes "multipart://").isPrefixOf uri

/-- `IPFSStorage.can_handle`: the URI starts with `ipfs://`. -/
def IPFSStorage.can_handle (uri : Bytes) : Bool :=
  (strBytes "ipfs://").isPrefixOf uri

/-- `RedisStorage.can_handle`: the URI starts with `redis://`. -/
def RedisStorage.can_handle (uri : Bytes) : Bool :=
  (strBytes "redis://").isPrefixOf uri

/-- `InlineStorage.can_handle`: the URI starts with `inline://`. -/
def InlineStorage.can_handle (uri : Bytes) : Bool :=
  (strBytes "inline://").isPrefixOf uri

/-- `HTTPStorage.can_handle`: the URI starts with `http://` or
`https://`. -/
def HTTPStorage.can_handle (uri : Bytes) : Bool :=
  (strBytes "http://").isPrefixOf uri || (strBytes "https://").isPrefixOf uri

/-- `MultipartStorage.store`.  `message_id = str(uuid.uuid4())` draws a
fresh UUID; the drawn value is passed in as `messageId`.  Python's
`(len(content) + max_part_size - 1) // max_part_size` is floor division
(`Int.fdiv`); with `max_part_size = 0` it raises `ZeroDivisionError`. -/
def MultipartStorage.store (max_part_size : Int) (messageId : Bytes)
    (content : Bytes) (contentType : Bytes) : Except PyError ContentDescriptor :=
  if max_part_size = 0 then .error .zeroDivisionError
  else
    let contentHash := sha256Digest content
    let totalParts : Int := ((content.length : Int) + max_part_size - 1).fdiv max_part_size
    .ok { uri := strBytes "multipart://" ++ messageId
        , content_type := contentType
        , content_length := (content.length : Int)
        , content_hash := contentHash
        , metadata :=
            [ (strBytes "storage_provider", strBytes "multipart")
            , (strBytes "message_id", messageId)
            , (strBytes "total_parts", intDecBytes totalParts)
            , (strBytes "part_size", intDecBytes max_part_size) ] }

/-- The envelope `MultipartStorage.create_part_envelopes` builds for one
chunk: the `MultiPartMessagePart` (with `complete_message_hash` the hex of
the descriptor's digest), wrapped in an envelope whose metadata is a copy
of the base metadata updated with `multipart = "k/N"` and `message_id`. -/
def MultipartStorage.partEnvelope (messageId : Bytes) (totalParts : Int)
    (partNumber : Nat) (chunk : Bytes) (completeHashHex : Bytes)
    (encryptionMode : Nat) (baseMetadata : PyDict) : Envelope :=
  let mp : MultiPartMessagePart :=
    { message_id := messageId
    , part_number := (partNumber : Int)
    , total_parts := totalParts
    , content := chunk
    , complete_message_hash := completeHashHex }
  { version := 1
  , content_hash := sha256Digest (payloadFlat (.part mp))
  , message_type := MULTIPART_MESSAGE_PART
  , encryption := encryptionMode
  , message := .part mp
  , metadata := dictUpdate baseMetadata
      [ (strBytes "multipart",
         intDecBytes (partNumber : Int) ++ strBytes "/" ++ intDecBytes totalParts)
      , (strBytes "message_id", messageId) ] }

/-- `MultipartStorage.create_part_envelopes`.  `metadata.get("message_id")`
returns `None` when absent; `None` and the empty string are both falsy in
`if not message_id`, so absence is modelled as the empty string.  The loop
`for i in range(0, len(content), max_part_size)` raises `ValueError` on a
zero step, iterates zero times on a negative step, and for a positive step
visits the chunks in order with `part_number = i // max_part_size + 1`,
i.e. `k + 1` for the `k`-th (0-based) chunk. -/
def MultipartStorage.create_part_envelopes (max_part_size : Int)
    (content : Bytes) (descriptor : ContentDescriptor) (encryptionMode : Nat)
    (baseMetadata : PyDict) : Except PyError (List Envelope) :=
  if ¬ MultipartStorage.can_handle descriptor.uri then
    .error (.validationError (strBytes "Invalid ledger URI: " ++ descriptor.uri))
  else do
    let messageId := (dictGet? descriptor.metadata (strBytes "message_id")).getD []
    let totalParts ← pyInt
      (dictGetD descriptor.metadata (strBytes "total_parts") (strBytes "0"))
    if messageId = [] ∨ totalParts = 0 then
      .error (.validationError (strBytes "Missing multipart metadata"))
    else if max_part_size = 0 then
      .error (.valueError (strBytes "range() arg 3 must not be zero"))
    else if max_part_size < 0 then
      .ok []
    else
      .ok (((chunksOf max_part_size.toNat content).enum).map
        (fun ic => MultipartStorage.partEnvelope messageId totalParts (ic.1 + 1)
          ic.2 (hexBytes descriptor.content_hash) encryptionMode baseMetadata))

/-- A content-storage backend as `CompositeStorage` sees one: the three
`ContentStorage` interface methods, taken as function fields (interface
dispatch). -/
structure StorageBackend where
  canHandleFn : Bytes → Bool
  retrieveFn : ContentDescriptor → Except PyError Bytes
  storeFn : Bytes → Bytes → Except PyError ContentDescriptor

/-- `CompositeStorage.can_handle`: some member backend can handle the
URI. -/
def CompositeStorage.can_handle (storages : List StorageBackend) (uri : Bytes) : Bool :=
  storages.any (fun s => s.canHandleFn uri)

/-- `CompositeStorage.retrieve`: the first member whose `can_handle`
matches retrieves; `ValidationError` when none matches. -/
def CompositeStorage.retrieve (storages : List StorageBackend)
    (descriptor : ContentDescriptor) : Except PyError Bytes :=
  match storages.find? (fun s => s.canHandleFn descriptor.uri) with
  | some s => s.retrieveFn descriptor
  | none => .error (.validationError
      (strBytes "No storage backend can handle URI: " ++ descriptor.uri))

/-- `CompositeStorage.store`: always the first backend;
`ValidationError` when the backend list is empty. -/
def CompositeStorage.store (storages : List StorageBackend)
    (content contentType : Bytes) : Except PyError ContentDescriptor :=
  match storages with
  | [] => .error (.validationError (strBytes "No storage backends configured"))
  | s :: _ => s.storeFn content contentType

/-! ## The envelope factory (`factory.py`), configured with a
`MultipartStorage` backend.  The factory's constructor state
(`max_envelope_size`, the storage's `max_part_size`) is passed explicitly;
the IPFS reference branch involves live network behaviour and is outside
this model. -/

/-- The three possible static types of `EnvelopeFactory.create_envelope`'s
result.  Python's `list` and `set` are distinct types - `isinstance`
dispatch in `create_envelope_payload` tells them apart - so they get
distinct constructors; `create_part_envelopes` returns a list.  (No
modelled path builds a `setEnvelopes`; it exists to model the
`isinstance(result, set)` branch.) -/
inductive CreateResult where
  | envelope (e : Envelope)
  | withDescriptor (e : Envelope) (d : ContentDescriptor)
  | setEnvelopes (l : List Envelope)
  | listEnvelopes (l : List Envelope)
  deriving DecidableEq, Repr

/-- `PostFiatEnvelopePayload`: envelope, optional content descriptor,
PostFiat metadata. -/
structure PostFiatEnvelopePayload where
  envelope : Envelope
  content : Option ContentDescriptor := none
  postfiat_metadata : PyDict
  deriving DecidableEq, Repr

/-- The metadata merge at the top of `create_envelope`:
`{"agent_id": "postfiat_research_agent_001"}` updated with the caller's
metadata. -/
def EnvelopeFactory.mergedMetadata (metadata : PyDict) : PyDict :=
  dictUpdate [(strBytes "agent_id", strBytes "postfiat_research_agent_001")] metadata

/-- The embedded envelope `_try_create_embedded_envelope` builds before its
size check: a `CoreMessage` holding the content (with the constant
timestamp metadata; `context_references or []` leaves a list argument
unchanged), wrapped with `content_hash = sha256(message).hexdigest()` and
`message_type = CORE_MESSAGE`. -/
def EnvelopeFactory.embeddedCandidate (content : Bytes)
    (contextReferences : List Bytes) (encryptionMode : Nat)
    (metadata : PyDict) : Envelope :=
  let core : CoreMessageData :=
    { content := content
    , context_references := contextReferences
    , metadata := [(strBytes "timestamp", strBytes "2024-07-07T12:00:00Z")] }
  { version := 1
  , content_hash := sha256Hex (payloadFlat (.core core))
  , message_type := CORE_MESSAGE
  , encryption := encryptionMode
  , message := .core core
  , metadata := metadata }

/-- `EnvelopeFactory._try_create_embedded_envelope`: the candidate if its
serialized size fits within `max_envelope_size`, else `None`. -/
def EnvelopeFactory.try_create_embedded_envelope (max_envelope_size : Int)
    (content : Bytes) (contextReferences : List Bytes) (encryptionMode : Nat)
    (metadata : PyDict) : Option Envelope :=
  let e := EnvelopeFactory.embeddedCandidate content contextReferences
    encryptionMode metadata
  if (envelopeWireSize e : Int) ≤ max_envelope_size then some e else none

/-- `EnvelopeFactory.create_envelope` with a `MultipartStorage` backend:
embed if it fits, otherwise `storage.store` then
`storage.create_part_envelopes`, returned as a Python list. -/
def EnvelopeFactory.create_envelope (max_envelope_size max_part_size : Int)
    (messageId : Bytes) (content : Bytes) (contextReferences : List Bytes)
    (encryptionMode : Nat) (metadata : PyDict) (contentType : Bytes) :
    Except PyError CreateResult :=
  let defaultMetadata := EnvelopeFactory.mergedMetadata metadata
  match EnvelopeFactory.try_create_embedded_envelope max_envelope_size content
      contextReferences encryptionMode defaultMetadata with
  | some e => .ok (.envelope e)
  | none => do
    let contentBytes := encodeUtf8 content
    let descriptor ← MultipartStorage.store max_part_size messageId
      contentBytes contentType
    let envs ← MultipartStorage.create_part_envelopes max_part_size
      contentBytes descriptor encryptionMode defaultMetadata
    .ok (.listEnvelopes envs)

/-- Stable insertion of `x` into a list sorted by `key` (goes before the
first strictly greater element, hence after earlier equals). -/
def insertSortedBy {α : Type} (key : α → Int) (x : α) : List α → List α
  | [] => [x]
  | y :: rest =>
    if key x ≤ key y then x :: y :: rest else y :: insertSortedBy key x rest

/-- Stable sort by an integer key.  CPython's `list.sort` is stable, and a
stable sort's output is uniquely determined by the key order and the input
order, so stable insertion sort computes the same list. -/
def sortByKey {α : Type} (key : α → Int) : List α → List α
  | [] => []
  | x :: rest => insertSortedBy key x (sortByKey key rest)

/-- `EnvelopeFactory.create_envelope_payload`: wraps `create_envelope`'s
result by its `isinstance` type - a lone `Envelope`, an
`(Envelope, ContentDescriptor)` tuple, a `set` (sorted by the
`metadata["multipart"]` part number, `"a/b".split("/")[0]` parsed with
`int`), and otherwise - in particular the `list` that the multipart
backend produces - `ValidationError("Unexpected result type: ...")` with
`{type(result)}` rendering as `<class 'list'>`. -/
def EnvelopeFactory.create_envelope_payload (max_envelope_size max_part_size : Int)
    (messageId : Bytes) (content : Bytes) (contextReferences : List Bytes)
    (encryptionMode : Nat) (metadata : PyDict) (contentType : Bytes)
    (postfiatMetadata : PyDict) : Except PyError PostFiatEnvelopePayload := do
  let result ← EnvelopeFactory.create_envelope max_envelope_size max_part_size
    messageId content contextReferences encryptionMode metadata contentType
  let pfmd := dictUpdate
    [ (strBytes "extension_version", strBytes "v1")
    , (strBytes "processing_mode", strBytes "selective_disclosure") ]
    postfiatMetadata
  match result with
  | .envelope e => .ok { envelope := e, postfiat_metadata := pfmd }
  | .withDescriptor e d =>
    .ok { envelope := e, content := some d, postfiat_metadata := pfmd }
  | .setEnvelopes l =>
    if l.isEmpty then .error (.validationError (strBytes "No envelopes created"))
    else do
      let keyed ← l.mapM (fun e => do
        let k ← pyInt ((dictGetD e.metadata (strBytes "multipart")
          (strBytes "1/1")).takeWhile (fun c => c ≠ 47))
        pure (k, e))
      match sortByKey (fun p => p.1) keyed with
      | [] => .error (.validationError (strBytes "No envelopes created"))
      | (_, e0) :: _ =>
        .ok { envelope := e0
            , postfiat_metadata :=
                dictSet pfmd (strBytes "total_parts") (natDecBytes l.length) }
  | .listEnvelopes _ =>
    .error (.validationError (strBytes "Unexpected result type: <class 'list'>"))

/-! ## Chunk reconstruction
(`EnvelopeFactory.reconstruct_content_from_chunks`) -/

/-- The collection loop of `reconstruct_content_from_chunks`: check each
envelope's `message_type`, parse its part, and keep the first part's
`message_id`/`complete_message_hash` as the reference, raising on the
first mismatch (the id is compared first; the hash only when the ids
agree).  Returns the parts in input order and the reference pair. -/
def collectParts :
    Option (Bytes × Bytes) → List MultiPartMessagePart → List Envelope →
      Except PyError (List MultiPartMessagePart × Option (Bytes × Bytes))
  | reference, acc, [] => .ok (acc.reverse, reference)
  | none, acc, e :: rest =>
    if e.message_type ≠ MULTIPART_MESSAGE_PART then
      .error (.validationError
        (strBytes "Expected MULTIPART_MESSAGE_PART, got " ++ natDecBytes e.message_type))
    else
      collectParts
        (some ((parseAsMPart e.message).message_id,
          (parseAsMPart e.message).complete_message_hash))
        (parseAsMPart e.message :: acc) rest
  | some (mid, mh), acc, e :: rest =>
    if e.message_type ≠ MULTIPART_MESSAGE_PART then
      .error (.validationError
        (strBytes "Expected MULTIPART_MESSAGE_PART, got " ++ natDecBytes e.message_type))
    else if mid ≠ (parseAsMPart e.message).message_id then
      .error (.validationError
        (strBytes "Message ID mismatch: expected " ++ mid
          ++ strBytes ", got " ++ (parseAsMPart e.message).message_id))
    else if mh ≠ (parseAsMPart e.message).complete_message_hash then
      .error (.validationError
        (strBytes "Complete message hash mismatch between chunks"))
    else collectParts (some (mid, mh)) (parseAsMPart e.message :: acc) rest

/-- The sequence-validation loop: `enumerate(parts, 1)` over the sorted
parts, each must carry `part_number = i` and `total_parts =
expected_total`. -/
def checkSeq (expectedTotal : Int) (i : Nat) :
    List MultiPartMessagePart → Except PyError Unit
  | [] => .ok ()
  | p :: rest =>
    if p.part_number ≠ (i : Int) then
      .error (.validationError
        (strBytes "Missing or out-of-order part: expected " ++ natDecBytes i
          ++ strBytes ", got " ++ intDecBytes p.part_number))
    else if p.total_parts ≠ expectedTotal then
      .error (.validationError
        (strBytes "Total parts mismatch: expected " ++ intDecBytes expectedTotal
          ++ strBytes ", got " ++ intDecBytes p.total_parts))
    else checkSeq expectedTotal (i + 1) rest

/-- `EnvelopeFactory.reconstruct_content_from_chunks`: collect and check
the parts, sort by `part_number` (`list.sort` is stable), validate the
sequence `1..total_parts` and the part count, then decode the
concatenation as UTF-8 (before the hash comparison) and check its hex
digest against the shared `complete_message_hash`. -/
def EnvelopeFactory.reconstruct_content_from_chunks (envelopes : List Envelope) :
    Except PyError Bytes :=
  if envelopes.isEmpty then
    .error (.validationError (strBytes "No envelopes provided for reconstruction"))
  else do
    let collected ← collectParts none [] envelopes
    let parts := sortByKey (fun p => p.part_number) collected.1
    -- `expected_total = parts[0].total_parts if parts else 0`: the default
    -- part has `total_parts = 0`, so `headI` says the same thing
    let expectedTotal : Int := parts.headI.total_parts
    let _ ← checkSeq expectedTotal 1 parts
    if (parts.length : Int) ≠ expectedTotal then
      .error (.validationError
        (strBytes "Incomplete parts: expected " ++ intDecBytes expectedTotal
          ++ strBytes ", got " ++ natDecBytes parts.length))
    else do
      let contentBytes := (parts.map (fun p => p.content)).flatten
      let content ← decodeUtf8 contentBytes
      -- the loop variable `complete_message_hash` (None only when no part
      -- was seen, impossible here since `envelopes` is nonempty)
      if sha256Hex contentBytes ≠ collected.2.elim [] Prod.snd then
        .error (.validationError
          (strBytes "Reconstructed content hash does not match expected hash"))
      else .ok content

/-! ## Envelope stores (`stores/xrpl_store.py`, `stores/evm_store.py`,
`envelope_store.py`) -/

/-- `XRPLEnvelopeStore.delete`: unconditionally
`raise NotImplementedError(...)` - the immutable-ledger capability gap the
spec's error taxonomy calls an unsupported-operation error. -/
def XRPLEnvelopeStore.delete (envelopeId : Bytes) : Except PyError Bool :=
  .error (.notImplementedError
    (strBytes "Envelope deletion not supported on immutable XRPL ledger"))

/-- `EVMEnvelopeStore.delete`: unconditionally
`raise NotImplementedError(...)`. -/
def EVMEnvelopeStore.delete (envelopeId : Bytes) : Except PyError Bool :=
  .error (.notImplementedError
    (strBytes "Envelope deletion not supported on immutable EVM blockchain"))

/-- The metadata stamping `XRPLEnvelopeStore.store` performs before the
memo conversion: `storage_backend`, `network` and `envelope_id`
(`sha256(envelope.SerializeToString()).hexdigest()` of the envelope as
given) are written into the envelope's own metadata map. -/
def XRPLEnvelopeStore.stampedEnvelope (network : Bytes) (envelope : Envelope) :
    Envelope :=
  let envelopeId := sha256Hex (envelopeFlat envelope)
  { envelope with
    metadata := dictUpdate envelope.metadata
      [ (strBytes "storage_backend", strBytes "xrpl")
      , (strBytes "network", network)
      , (strBytes "envelope_id", envelopeId) ] }

/-- How far `XRPLEnvelopeStore.store` gets before touching the network:
either it fails first, or it reaches the XRPL submission with the memo
envelope. -/
inductive XrplStoreOutcome where
  | failedBeforeNetwork (e : PyError)
  | networkSubmit (memoEnvelope : Envelope)
  deriving DecidableEq, Repr

/-- The deterministic pre-network phase of `XRPLEnvelopeStore.store`: stamp
the metadata, then `_envelope_to_memo` serializes the (stamped) envelope
and raises `ValueError("Envelope too large for XRPL memo: {n} bytes")` at
more than 1024 bytes, which the method's blanket `except` rewraps as
`StorageError("Failed to store envelope on XRPL: ...")`; only then does the
code build and submit the XRPL transaction. -/
def XRPLEnvelopeStore.storePreNetwork (network : Bytes) (envelope : Envelope) :
    XrplStoreOutcome :=
  let e1 := XRPLEnvelopeStore.stampedEnvelope network envelope
  let n := envelopeWireSize e1
  if 1024 < n then
    .failedBeforeNetwork (.storageError
      (strBytes "Failed to store envelope on XRPL: Envelope too large for XRPL memo: "
        ++ natDecBytes n ++ strBytes " bytes"))
  else .networkSubmit e1

/-- An envelope-store backend as `CompositeEnvelopeStore` sees one: the
`retrieve` interface method as a function field. -/
structure EnvelopeStoreBackend where
  retrieveFn : Bytes → Except PyError Envelope

/-- `CompositeEnvelopeStore.retrieve`: probe the member stores in
insertion order (`self.stores.items()`), returning the first success;
`except EnvelopeNotFoundError: continue` skips exactly not-found errors,
every other exception propagates; after all members miss, raise
`EnvelopeNotFoundError(f"Envelope '{envelope_id}' not found in any
store")` (the searched store names go only to the logger). -/
def CompositeEnvelopeStore.retrieve (stores : List (Bytes × EnvelopeStoreBackend))
    (envelopeId : Bytes) : Except PyError Envelope :=
  match stores with
  | [] => .error (.envelopeNotFoundError
      (strBytes "Envelope '" ++ envelopeId ++ strBytes "' not found in any store"))
  | (_, s) :: rest =>
    match s.retrieveFn envelopeId with
    | .ok e => .ok e
    | .error (.envelopeNotFoundError _) => CompositeEnvelopeStore.retrieve rest envelopeId
    | .error e => .error e

/-! ## Concrete instances used by the individual checks -/

/-- A factory-default content type. -/
def plainText : Bytes := strBytes "text/plain; charset=utf-8"

/-- A UUID string of the shape `str(uuid.uuid4())` produces (36
characters). -/
def uuidW : Bytes := strBytes "123e4567-e89b-12d3-a456-426614174000"

/-- 1600 bytes of `'a'` - content too large to embed at the default
1000-byte envelope limit. -/
def content1600 : Bytes := List.replicate 1600 97

/-- 5000 bytes of `'a'` - the spec's scenario B content size. -/
def content5000 : Bytes := List.replicate 5000 97

/-- 30 bytes of `'a'` - chunked content for the small round-trip
instance. -/
def content30 : Bytes := List.replicate 30 97

/-- The envelope list the factory produces for `content30` at
`max_envelope_size = 50`, `max_part_size = 10`. -/
def envs30 : List Envelope :=
  match EnvelopeFactory.create_envelope 50 10 (strBytes "m1") content30 []
      ENCRYPTION_PROTECTED [] plainText with
  | .ok (.listEnvelopes l) => l
  | _ => []

/-- The single embedded envelope the factory produces for 50 bytes of `'a'`
at the default 1000-byte limit. -/
def embedded50 : Envelope :=
  match EnvelopeFactory.create_envelope 1000 800 uuidW (List.replicate 50 97) []
      ENCRYPTION_PROTECTED [] plainText with
  | .ok (.envelope e) => e
  | _ => { version := 0, content_hash := [], message_type := 0, encryption := 0
         , message := .core ⟨[], [], []⟩, metadata := [] }

/-- A single multipart part whose content `[0xFF]` is not valid UTF-8 and
whose `complete_message_hash` (`"00"`) differs from the content's actual
hex digest. -/
def invalidUtf8Part : MultiPartMessagePart :=
  { message_id := strBytes "m", part_number := 1, total_parts := 1
  , content := [255], complete_message_hash := strBytes "00" }

/-- The envelope carrying `invalidUtf8Part`. -/
def invalidUtf8Envelope : Envelope :=
  { version := 1, content_hash := [], message_type := MULTIPART_MESSAGE_PART
  , encryption := 1, message := .part invalidUtf8Part, metadata := [] }

/-- An envelope that serializes to more than 1024 bytes only because its
metadata already holds a 1100-byte `envelope_id` value - the very key the
XRPL store overwrites with a 64-character digest before its memo size
check. -/
def shrinkingEnvelope : Envelope :=
  { version := 1, content_hash := [], message_type := CORE_MESSAGE
  , encryption := 0, message := .core ⟨[], [], []⟩
  , metadata := [(strBytes "envelope_id", List.replicate 1100 97)] }

/-- An envelope whose 1500-byte core message keeps it above the memo cap
even after stamping - the spec's scenario C size. -/
def oversizeMemoEnvelope : Envelope :=
  { version := 1, content_hash := sha256Hex (payloadFlat (.core ⟨List.replicate 1500 97, [], []⟩))
  , message_type := CORE_MESSAGE, encryption := 1
  , message := .core ⟨List.replicate 1500 97, [], []⟩, metadata := [] }

/-- A content-storage member that handles `inline://` URIs (its
`can_handle` is `InlineStorage.can_handle`; the data methods are
immaterial to the dispatch claims). -/
def inlineBackendW : StorageBackend :=
  { canHandleFn := InlineStorage.can_handle
  , retrieveFn := fun _ => .ok [1]
  , storeFn := fun content contentType =>
      .ok { uri := strBytes "inline://data", content_type := contentType
          , content_length := (content.length : Int)
          , content_hash := sha256Digest content, metadata := [] } }

/-- A content-storage member that handles `multipart://` URIs. -/
def multipartBackendW : StorageBackend :=
  { canHandleFn := MultipartStorage.can_handle
  , retrieveFn := fun _ => .ok [2]
  , storeFn := fun content contentType =>
      .ok { uri := strBytes "multipart://w", content_type := contentType
          , content_length := (content.length : Int)
          , content_hash := sha256Digest content, metadata := [] } }

/-- A descriptor with a `multipart://` URI. -/
def mpDescW : ContentDescriptor :=
  { uri := strBytes "multipart://x", content_type := plainText
  , content_length := 0, content_hash := [], metadata := [] }

/-- The envelope list `create_part_envelopes` computes in the well-formed
case (store's descriptor, positive part size, nonempty message id and
content) - proved equal to the function's result below. -/
def partEnvelopesOf (p : Nat) (mid content : Bytes) (enc : Nat) (md : PyDict) :
    List Envelope :=
  (chunksOf p content).enum.map (fun ic =>
    MultipartStorage.partEnvelope mid ((chunksOf p content).length : Int)
      (ic.1 + 1) ic.2 (sha256Hex content) enc md)

/-- An envelope-store member whose `retrieve` always raises
`EnvelopeNotFoundError`. -/
def nfStoreW : EnvelopeStoreBackend :=
  { retrieveFn := fun envelopeId =>
      .error (.envelopeNotFoundError (strBytes "Envelope '" ++ envelopeId ++ strBytes "' not found")) }

/-! ## Helper lemmas: decimal strings -/

theorem natDecAux_adequate : ∀ f1 f2 n, n < f1 → n < f2 → natDecAux f1 n = natDecAux f2 n := by
  intro f1
  induction f1 with
  | zero => intro f2 n h1 _; exact absurd h1 (Nat.not_lt_zero n)
  | succ f ih =>
    intro f2 n h1 h2
    cases f2 with
    | zero => exact absurd h2 (Nat.not_lt_zero n)
    | succ g =>
      simp only [natDecAux]
      by_cases h10 : n < 10
      · rw [if_pos h10, if_pos h10]
      · rw [if_neg h10, if_neg h10]
        have hd : n / 10 < n := Nat.div_lt_self (by omega) (by omega)
        rw [ih g (n / 10) (by omega) (by omega)]

theorem natDecBytes_eq (n : Nat) :
    natDecBytes n = if n < 10 then [48 + n] else natDecBytes (n / 10) ++ [48 + n % 10] := by
  show natDecAux (n + 1) n = _
  simp only [natDecAux]
  by_cases h10 : n < 10
  · rw [if_pos h10, if_pos h10]
  · rw [if_neg h10, if_neg h10]
    have hd : n / 10 < n := Nat.div_lt_self (by omega) (by omega)
    rw [natDecAux_adequate n (n / 10 + 1) (n / 10) (by omega) (by omega)]
    rfl

theorem natDecBytes_ne_nil (n : Nat) : natDecBytes n ≠ [] := by
  rw [natDecBytes_eq]
  split
  · simp
  · intro h
    rw [List.append_eq_nil] at h
    simp at h

theorem natDecBytes_digits (n : Nat) : ∀ c ∈ natDecBytes n, 48 ≤ c ∧ c ≤ 57 := by
  induction n using Nat.strong_induction_on with
  | _ n ih =>
    rw [natDecBytes_eq]
    split
    · intro c hc
      simp only [List.mem_singleton] at hc
      omega
    · intro c hc
      rw [List.mem_append] at hc
      rcases hc with hc | hc
      · exact ih (n / 10) (Nat.div_lt_self (by omega) (by omega)) c hc
      · simp only [List.mem_singleton] at hc
        have := Nat.mod_lt n (y := 10) (by omega)
        omega

theorem digitsToNatAux_append (a b : Bytes) (acc : Nat) :
    digitsToNatAux (a ++ b) acc =
      match digitsToNatAux a acc with
      | some m => digitsToNatAux b m
      | none => none := by
  induction a generalizing acc with
  | nil => rfl
  | cons c t ih =>
    simp only [List.cons_append, digitsToNatAux]
    split
    · exact ih _
    · rfl

theorem digitsToNatAux_natDecBytes (n : Nat) :
    ∀ acc, ∃ k, digitsToNatAux (natDecBytes n) acc = some (acc * 10 ^ k + n) := by
  induction n using Nat.strong_induction_on with
  | _ n ih =>
    intro acc
    rw [natDecBytes_eq]
    split
    · refine ⟨1, ?_⟩
      simp only [digitsToNatAux]
      rw [if_pos (by omega)]
      congr 1
      omega
    · rw [digitsToNatAux_append]
      obtain ⟨k, hk⟩ := ih (n / 10) (Nat.div_lt_self (by omega) (by omega)) acc
      rw [hk]
      refine ⟨k + 1, ?_⟩
      simp only [digitsToNatAux]
      rw [if_pos (by have := Nat.mod_lt n (y := 10) (by omega); omega)]
      congr 1
      have hmod := Nat.div_add_mod n 10
      have : 48 + n % 10 - 48 = n % 10 := by omega
      rw [this, pow_succ]
      ring_nf
      omega

theorem digitsToNat_natDecBytes (n : Nat) : digitsToNat (natDecBytes n) = some n := by
  rcases h : natDecBytes n with _ | ⟨c, t⟩
  · exact absurd h (natDecBytes_ne_nil n)
  · obtain ⟨k, hk⟩ := digitsToNatAux_natDecBytes n 0
    rw [h] at hk
    simpa [digitsToNat] using hk

theorem pyInt_natDecBytes (n : Nat) : pyInt (natDecBytes n) = .ok (n : Int) := by
  rcases h : natDecBytes n with _ | ⟨c, t⟩
  · exact absurd h (natDecBytes_ne_nil n)
  · have hdig : 48 ≤ c ∧ c ≤ 57 := natDecBytes_digits n c (by rw [h]; exact List.mem_cons_self _ _)
    have hparse : digitsToNat (c :: t) = some n := by rw [← h]; exact digitsToNat_natDecBytes n
    simp only [pyInt]
    rw [if_neg (by omega), hparse]

theorem pyInt_intDecBytes_ofNat (n : Nat) : pyInt (intDecBytes (n : Int)) = .ok (n : Int) :=
  pyInt_natDecBytes n

/-! ## Helper lemmas: prefixes and substrings of byte strings -/

theorem isPrefixOf_append_self (a b : Bytes) : a.isPrefixOf (a ++ b) = true := by
  induction a with
  | nil => simp [List.isPrefixOf]
  | cons c t ih => simpa [List.isPrefixOf] using ih

theorem isPrefixOf_append_of (s l r : Bytes) (h : s.isPrefixOf l = true) :
    s.isPrefixOf (l ++ r) = true := by
  induction s generalizing l with
  | nil => simp [List.isPrefixOf]
  | cons c t ih =>
    rcases l with _ | ⟨d, ds⟩
    · simp [List.isPrefixOf] at h
    · simp only [List.isPrefixOf, List.cons_append, Bool.and_eq_true] at h ⊢
      exact ⟨h.1, ih ds h.2⟩

theorem containsSeq_nil_left (l : Bytes) : containsSeq [] l = true := by
  induction l with
  | nil => rfl
  | cons a as ih => simp [containsSeq, List.isPrefixOf]

theorem containsSeq_append_left (sub a b : Bytes) (h : containsSeq sub a = true) :
    containsSeq sub (a ++ b) = true := by
  induction a with
  | nil =>
    simp only [containsSeq, List.isEmpty_iff] at h
    subst h
    exact containsSeq_nil_left b
  | cons c t ih =>
    simp only [containsSeq, Bool.or_eq_true] at h ⊢
    rcases h with h | h
    · exact Or.inl (by simpa using isPrefixOf_append_of sub (c :: t) b h)
    · exact Or.inr (ih h)

/-! ## Helper lemmas: chunking -/

theorem chunksOfAux_adequate :
    ∀ f1 f2 P (l : Bytes), l.length ≤ f1 → l.length ≤ f2 →
      chunksOfAux f1 P l = chunksOfAux f2 P l := by
  intro f1
  induction f1 with
  | zero =>
    intro f2 P l h1 _
    have hl : l = [] := by rw [← List.length_eq_zero]; omega
    subst hl
    cases f2 with
    | zero => rfl
    | succ g => simp [chunksOfAux]
  | succ f ih =>
    intro f2 P l h1 h2
    cases f2 with
    | zero =>
      have hl : l = [] := by rw [← List.length_eq_zero]; omega
      subst hl
      simp [chunksOfAux]
    | succ g =>
      simp only [chunksOfAux]
      by_cases hguard : l = [] ∨ P = 0
      · rw [if_pos hguard, if_pos hguard]
      · rw [if_neg hguard, if_neg hguard]
        push_neg at hguard
        have hlp : 0 < l.length := List.length_pos.mpr hguard.1
        have hP : P ≠ 0 := hguard.2
        rw [ih g P (l.drop P)
          (by rw [List.length_drop]; omega) (by rw [List.length_drop]; omega)]

theorem chunksOf_nil (P : Nat) : chunksOf P [] = [] := rfl

theorem chunksOf_cons (P : Nat) (l : Bytes) (hP : P ≠ 0) (hl : l ≠ []) :
    chunksOf P l = l.take P :: chunksOf P (l.drop P) := by
  show chunksOfAux l.length P l = _
  rcases l with _ | ⟨a, t⟩
  · exact absurd rfl hl
  · simp only [List.length_cons, chunksOfAux]
    rw [if_neg (by simp [hP])]
    rw [chunksOfAux_adequate t.length ((a :: t).drop P).length P ((a :: t).drop P)
      (by rw [List.length_drop]; simp only [List.length_cons]; omega) (Nat.le_refl _)]
    rfl

theorem chunksOf_flatten (P : Nat) (hP : 0 < P) (l : Bytes) :
    (chunksOf P l).flatten = l := by
  have main : ∀ n (l : Bytes), l.length = n → (chunksOf P l).flatten = l := by
    intro n
    induction n using Nat.strong_induction_on with
    | _ n ih =>
      intro l hl
      by_cases h : l = []
      · subst h; simp [chunksOf_nil]
      · rw [chunksOf_cons P l (by omega) h]
        simp only [List.flatten_cons]
        have hlen : (l.drop P).length < n := by
          have h0 : 0 < l.length := List.length_pos.mpr h
          simp only [List.length_drop]
          omega
        rw [ih (l.drop P).length hlen (l.drop P) rfl, List.take_append_drop]
  exact main l.length l rfl

theorem chunksOf_length (P : Nat) (hP : 0 < P) (l : Bytes) (hl : l ≠ []) :
    (chunksOf P l).length = (l.length + P - 1) / P := by
  have main : ∀ n (l : Bytes), l.length = n → l ≠ [] →
      (chunksOf P l).length = (l.length + P - 1) / P := by
    intro n
    induction n using Nat.strong_induction_on with
    | _ n ih =>
      intro l hl hne
      have h0 : 0 < l.length := List.length_pos.mpr hne
      rw [chunksOf_cons P l (by omega) hne]
      by_cases hsmall : l.length ≤ P
      · have hdrop : l.drop P = [] := by
          rw [← List.length_eq_zero]
          simp only [List.length_drop]
          omega
        rw [hdrop, chunksOf_nil]
        simp only [List.length_cons, List.length_nil]
        exact (Nat.div_eq_of_lt_le (by omega) (by omega)).symm
      · have hdne : l.drop P ≠ [] := by
          rw [← List.length_pos]
          simp only [List.length_drop]
          omega
        have hlen : (l.drop P).length < n := by
          simp only [List.length_drop]
          omega
        rw [List.length_cons, ih (l.drop P).length hlen (l.drop P) rfl hdne]
        simp only [List.length_drop]
        have h1 : l.length - P + P - 1 = l.length - 1 := by omega
        have h2 : l.length + P - 1 = (l.length - 1) + P := by omega
        rw [h1, h2, Nat.add_div_right _ hP]
  exact main l.length l rfl hl

theorem chunksOf_ne_nil (P : Nat) (hP : 0 < P) (l : Bytes) (hl : l ≠ []) :
    chunksOf P l ≠ [] := by
  rw [chunksOf_cons P l (by omega) hl]
  simp

theorem chunksOf_mem (P : Nat) (hP : 0 < P) (l : Bytes) :
    ∀ c ∈ chunksOf P l, c.length ≤ P ∧ c ≠ [] := by
  have main : ∀ n (l : Bytes), l.length = n →
      ∀ c ∈ chunksOf P l, c.length ≤ P ∧ c ≠ [] := by
    intro n
    induction n using Nat.strong_induction_on with
    | _ n ih =>
      intro l hl c hc
      by_cases h : l = []
      · subst h; rw [chunksOf_nil] at hc; simp at hc
      · rw [chunksOf_cons P l (by omega) h] at hc
        have h0 : 0 < l.length := List.length_pos.mpr h
        rcases List.mem_cons.mp hc with hc | hc
        · subst hc
          constructor
          · simp [List.length_take]
          · rw [← List.length_pos]
            simp only [List.length_take]
            omega
        · have hlen : (l.drop P).length < n := by
            simp only [List.length_drop]
            omega
          exact ih (l.drop P).length hlen (l.drop P) rfl c hc
  exact main l.length l rfl

theorem chunksOf_dropLast (P : Nat) (hP : 0 < P) (l : Bytes) :
    ∀ c ∈ (chunksOf P l).dropLast, c.length = P := by
  have main : ∀ n (l : Bytes), l.length = n →
      ∀ c ∈ (chunksOf P l).dropLast, c.length = P := by
    intro n
    induction n using Nat.strong_induction_on with
    | _ n ih =>
      intro l hl c hc
      by_cases h : l = []
      · subst h; rw [chunksOf_nil] at hc; simp at hc
      · rw [chunksOf_cons P l (by omega) h] at hc
        have h0 : 0 < l.length := List.length_pos.mpr h
        by_cases hd : l.drop P = []
        · rw [hd, chunksOf_nil] at hc
          simp at hc
        · have hcons := chunksOf_cons P (l.drop P) (by omega) hd
          rw [hcons] at hc
          rw [List.dropLast_cons₂] at hc
          rcases List.mem_cons.mp hc with hc | hc
          · subst hc
            have hdl : 0 < (l.drop P).length := List.length_pos.mpr hd
            simp only [List.length_drop] at hdl
            simp only [List.length_take]
            omega
          · have hlen : (l.drop P).length < n := by
              simp only [List.length_drop]
              omega
            exact ih (l.drop P).length hlen (l.drop P) rfl c
              (by rw [hcons]; exact hc)
  exact main l.length l rfl

theorem fdiv_ceil_nat (L p : Nat) (hp : 0 < p) :
    ((L : Int) + (p : Int) - 1).fdiv (p : Int) = (((L + p - 1) / p : Nat) : Int) := by
  have h1 : (L : Int) + (p : Int) - 1 = ((L + p - 1 : Nat) : Int) := by omega
  rw [h1]
  exact (Int.ofNat_fdiv _ _).symm

/-! ## Helper lemmas: the stable sort -/

theorem insertSortedBy_perm {α : Type} (key : α → Int) (x : α) (l : List α) :
    (insertSortedBy key x l).Perm (x :: l) := by
  induction l with
  | nil => exact List.Perm.refl _
  | cons y t ih =>
    rw [insertSortedBy]
    split
    · exact List.Perm.refl _
    · exact (List.Perm.cons y ih).trans (List.Perm.swap x y t)

theorem sortByKey_perm {α : Type} (key : α → Int) (l : List α) :
    (sortByKey key l).Perm l := by
  induction l with
  | nil => exact List.Perm.refl _
  | cons x t ih =>
    exact (insertSortedBy_perm key x (sortByKey key t)).trans (List.Perm.cons x ih)

theorem sortByKey_length {α : Type} (key : α → Int) (l : List α) :
    (sortByKey key l).length = l.length :=
  (sortByKey_perm key l).length_eq

theorem sortByKey_mem {α : Type} (key : α → Int) (l : List α) (a : α) :
    a ∈ sortByKey key l ↔ a ∈ l :=
  (sortByKey_perm key l).mem_iff

theorem insertSortedBy_sorted_head {α : Type} (key : α → Int) (x : α) (l : List α)
    (h : ∀ b ∈ l, key x ≤ key b) : insertSortedBy key x l = x :: l := by
  cases l with
  | nil => rfl
  | cons y t =>
    rw [insertSortedBy, if_pos (h y (List.mem_cons_self _ _))]

theorem sortByKey_eq_self {α : Type} (key : α → Int) (l : List α)
    (h : l.Pairwise (fun a b => key a ≤ key b)) : sortByKey key l = l := by
  induction l with
  | nil => rfl
  | cons x t ih =>
    rw [List.pairwise_cons] at h
    rw [sortByKey, ih h.2]
    exact insertSortedBy_sorted_head key x t h.1

/-! ## Helper lemmas: the reconstruction loops -/

theorem collectParts_all_ok (mid mh : Bytes) (es : List Envelope)
    (h : ∀ e ∈ es, e.message_type = MULTIPART_MESSAGE_PART ∧
      (parseAsMPart e.message).message_id = mid ∧
      (parseAsMPart e.message).complete_message_hash = mh) :
    ∀ acc, collectParts (some (mid, mh)) acc es =
      .ok (acc.reverse ++ es.map (fun e => parseAsMPart e.message), some (mid, mh)) := by
  induction es with
  | nil => intro acc; simp [collectParts]
  | cons e rest ih =>
    intro acc
    obtain ⟨hty, hid, hhs⟩ := h e (List.mem_cons_self _ _)
    simp only [collectParts]
    rw [if_neg (by rw [hty]; simp), if_neg (by rw [hid]; simp),
      if_neg (by rw [hhs]; simp)]
    rw [ih (fun e he => h e (List.mem_cons_of_mem _ he)) (parseAsMPart e.message :: acc)]
    simp

theorem collectParts_some_inv (es : List Envelope) :
    ∀ mid mh acc out ref,
      collectParts (some (mid, mh)) acc es = .ok (out, ref) →
      out = acc.reverse ++ es.map (fun e => parseAsMPart e.message) ∧
      ref = some (mid, mh) ∧
      ∀ e ∈ es, e.message_type = MULTIPART_MESSAGE_PART ∧
        (parseAsMPart e.message).message_id = mid ∧
        (parseAsMPart e.message).complete_message_hash = mh := by
  induction es with
  | nil =>
    intro mid mh acc out ref h
    simp only [collectParts] at h
    injection h with h
    injection h with h1 h2
    exact ⟨by simp [← h1], h2.symm, by simp⟩
  | cons e rest ih =>
    intro mid mh acc out ref h
    simp only [collectParts] at h
    by_cases hty : e.message_type = MULTIPART_MESSAGE_PART
    · rw [if_neg (by rw [hty]; simp)] at h
      by_cases hid : mid = (parseAsMPart e.message).message_id
      · rw [if_neg (by rw [← hid]; simp)] at h
        by_cases hhs : mh = (parseAsMPart e.message).complete_message_hash
        · rw [if_neg (by rw [← hhs]; simp)] at h
          obtain ⟨hout, href, hall⟩ := ih mid mh _ out ref h
          refine ⟨by simp [hout], href, ?_⟩
          intro e2 he2
          rcases List.mem_cons.mp he2 with he2 | he2
          · subst he2; exact ⟨hty, hid.symm, hhs.symm⟩
          · exact hall e2 he2
        · rw [if_pos (by simpa using hhs)] at h
          exact absurd h (by simp)
      · rw [if_pos (by simpa using hid)] at h
        exact absurd h (by simp)
    · rw [if_pos (by simpa using hty)] at h
      exact absurd h (by simp)

theorem checkSeq_ok (N : Int) (ps : List MultiPartMessagePart) :
    ∀ i : Nat,
      (∀ k (hk : k < ps.length),
        (ps.get ⟨k, hk⟩).part_number = ((i + k : Nat) : Int) ∧
        (ps.get ⟨k, hk⟩).total_parts = N) →
      checkSeq N i ps = .ok () := by
  induction ps with
  | nil => intro i _; rfl
  | cons q t ih =>
    intro i h
    obtain ⟨hn, ht⟩ := h 0 (by simp)
    simp only [List.get] at hn ht
    rw [checkSeq, if_neg (by rw [hn]; simp), if_neg (by rw [ht]; simp)]
    refine ih (i + 1) ?_
    intro k hk
    have := h (k + 1) (by simpa using Nat.succ_lt_succ hk)
    simp only [List.get] at this
    refine ⟨?_, this.2⟩
    rw [this.1]
    congr 1
    omega

theorem checkSeq_inv (N : Int) (ps : List MultiPartMessagePart) :
    ∀ i : Nat, checkSeq N i ps = .ok () →
      ∀ k (hk : k < ps.length),
        (ps.get ⟨k, hk⟩).part_number = ((i + k : Nat) : Int) ∧
        (ps.get ⟨k, hk⟩).total_parts = N := by
  induction ps with
  | nil => intro i _ k hk; simp at hk
  | cons q t ih =>
    intro i h k hk
    rw [checkSeq] at h
    by_cases hn : q.part_number = (i : Int)
    · rw [if_neg (by simpa using hn)] at h
      by_cases ht : q.total_parts = N
      · rw [if_neg (by simpa using ht)] at h
        cases k with
        | zero => exact ⟨by simpa using hn, by simpa using ht⟩
        | succ k2 =>
          have := ih (i + 1) h k2 (by simpa using Nat.lt_of_succ_lt_succ hk)
          refine ⟨?_, this.2⟩
          simp only [List.get] at this ⊢
          rw [this.1]
          congr 1
          omega
      · rw [if_pos (by simpa using ht)] at h
        exact absurd h (by simp)
    · rw [if_pos (by simpa using hn)] at h
      exact absurd h (by simp)

/-! ## Helper lemmas: the multipart pipeline -/

theorem exceptBind_ok {ε α β : Type} (v : α) (f : α → Except ε β) :
    (Except.ok (ε := ε) v >>= f) = f v := rfl

theorem exceptBind_error {ε α β : Type} (e : ε) (f : α → Except ε β) :
    (Except.error (α := α) e >>= f) = .error e := rfl

theorem multipart_store_eq (p : Nat) (hp : 0 < p) (mid content ct : Bytes) :
    MultipartStorage.store (p : Int) mid content ct = .ok
      { uri := strBytes "multipart://" ++ mid
      , content_type := ct
      , content_length := (content.length : Int)
      , content_hash := sha256Digest content
      , metadata :=
          [ (strBytes "storage_provider", strBytes "multipart")
          , (strBytes "message_id", mid)
          , (strBytes "total_parts",
             intDecBytes (((content.length + p - 1) / p : Nat) : Int))
          , (strBytes "part_size", intDecBytes (p : Int)) ] } := by
  simp only [MultipartStorage.store]
  rw [if_neg (by rw [Int.natCast_eq_zero]; omega)]
  rw [fdiv_ceil_nat content.length p hp]

theorem multipart_create_eq (p : Nat) (hp : 0 < p) (mid content ct : Bytes)
    (enc : Nat) (md : PyDict) (hmid : mid ≠ []) (hc : content ≠ []) (d : ContentDescriptor)
    (hd : MultipartStorage.store (p : Int) mid content ct = .ok d) :
    MultipartStorage.create_part_envelopes (p : Int) content d enc md =
      .ok (partEnvelopesOf p mid content enc md) := by
  rw [multipart_store_eq p hp mid content ct] at hd
  injection hd with hd
  subst hd
  have hN : 1 ≤ (content.length + p - 1) / p := by
    rw [Nat.le_div_iff_mul_le hp]
    have := List.length_pos.mpr hc
    omega
  simp only [MultipartStorage.create_part_envelopes]
  rw [if_neg (by
    simp only [MultipartStorage.can_handle]
    rw [isPrefixOf_append_self]
    simp)]
  have hget : dictGet?
      [ (strBytes "storage_provider", strBytes "multipart")
      , (strBytes "message_id", mid)
      , (strBytes "total_parts",
         intDecBytes (((content.length + p - 1) / p : Nat) : Int))
      , (strBytes "part_size", intDecBytes (p : Int)) ]
      (strBytes "message_id") = some mid := rfl
  have hgetTP : dictGetD
      [ (strBytes "storage_provider", strBytes "multipart")
      , (strBytes "message_id", mid)
      , (strBytes "total_parts",
         intDecBytes (((content.length + p - 1) / p : Nat) : Int))
      , (strBytes "part_size", intDecBytes (p : Int)) ]
      (strBytes "total_parts") (strBytes "0")
      = intDecBytes (((content.length + p - 1) / p : Nat) : Int) := rfl
  simp only [hget, hgetTP, Option.getD_some, pyInt_intDecBytes_ofNat, exceptBind_ok]
  rw [if_neg (by
    push_neg
    exact ⟨hmid, by omega⟩)]
  rw [if_neg (by omega)]
  rw [if_neg (by
    rw [Int.not_lt]
    exact Int.natCast_nonneg p)]
  simp only [Int.toNat_ofNat]
  rw [← chunksOf_length p hp content hc]
  rfl

theorem collectParts_none_ok (es : List Envelope) (mid mh : Bytes) (hne : es ≠ [])
    (h : ∀ e ∈ es, e.message_type = MULTIPART_MESSAGE_PART ∧
      (parseAsMPart e.message).message_id = mid ∧
      (parseAsMPart e.message).complete_message_hash = mh) :
    collectParts none [] es =
      .ok (es.map (fun e => parseAsMPart e.message), some (mid, mh)) := by
  rcases es with _ | ⟨e0, rest⟩
  · exact absurd rfl hne
  · obtain ⟨hty, hid, hhs⟩ := h e0 (List.mem_cons_self _ _)
    simp only [collectParts]
    rw [if_neg (by rw [hty]; simp)]
    rw [hid, hhs]
    rw [collectParts_all_ok mid mh rest (fun e he => h e (List.mem_cons_of_mem _ he))
      [parseAsMPart e0.message]]
    simp

theorem mem_partEnvelopesOf (p : Nat) (mid content : Bytes) (enc : Nat) (md : PyDict) :
    ∀ e ∈ partEnvelopesOf p mid content enc md,
      e.message_type = MULTIPART_MESSAGE_PART ∧
      (parseAsMPart e.message).message_id = mid ∧
      (parseAsMPart e.message).complete_message_hash = sha256Hex content := by
  intro e he
  simp only [partEnvelopesOf, List.mem_map] at he
  obtain ⟨ic, _, rfl⟩ := he
  exact ⟨rfl, rfl, rfl⟩

theorem parts_of_partEnvelopesOf (p : Nat) (mid content : Bytes) (enc : Nat) (md : PyDict) :
    (partEnvelopesOf p mid content enc md).map (fun e => parseAsMPart e.message)
      = (chunksOf p content).enum.map (fun ic =>
          ({ message_id := mid
           , part_number := ((ic.1 + 1 : Nat) : Int)
           , total_parts := ((chunksOf p content).length : Int)
           , content := ic.2
           , complete_message_hash := sha256Hex content } : MultiPartMessagePart)) := by
  simp only [partEnvelopesOf, List.map_map]
  rfl

theorem reconstruct_partEnvelopesOf (p : Nat) (hp : 0 < p) (mid content : Bytes)
    (enc : Nat) (md : PyDict) (hmid : mid ≠ []) (hc : content ≠ [])
    (hutf : validUTF8 content = true) :
    EnvelopeFactory.reconstruct_content_from_chunks
      (partEnvelopesOf p mid content enc md) = .ok content := by
  have hcsne : chunksOf p content ≠ [] := chunksOf_ne_nil p hp content hc
  have hesne : partEnvelopesOf p mid content enc md ≠ [] := by
    simp only [partEnvelopesOf]
    intro h
    rw [List.map_eq_nil, List.enum_eq_nil] at h
    exact hcsne h
  -- the parsed parts, and their pointwise description
  have hmps := parts_of_partEnvelopesOf p mid content enc md
  set cs := chunksOf p content with hcs
  set N := cs.length with hN
  set mps := (partEnvelopesOf p mid content enc md).map (fun e => parseAsMPart e.message)
    with hmpsdef
  have hlenmps : mps.length = N := by
    rw [hmps]
    simp
  have hget : ∀ k (hk : k < mps.length),
      mps.get ⟨k, hk⟩ =
        { message_id := mid
        , part_number := ((k + 1 : Nat) : Int)
        , total_parts := (N : Int)
        , content := cs.get ⟨k, by rw [hlenmps] at hk; exact hk⟩
        , complete_message_hash := sha256Hex content } := by
    intro k hk
    rw [List.get_of_eq hmps ⟨k, hk⟩, List.get_eq_getElem]
    simp only [List.getElem_map, List.getElem_enum]
    rw [List.get_eq_getElem]
  -- the parts are already sorted by part number
  have hsorted : sortByKey (fun q => q.part_number) mps = mps := by
    refine sortByKey_eq_self _ _ ?_
    rw [List.pairwise_iff_getElem]
    intro i j hi hj hij
    have hgi := hget i (by exact hi)
    have hgj := hget j (by exact hj)
    rw [List.get_eq_getElem] at hgi hgj
    simp only [hgi, hgj]
    show ((i + 1 : Nat) : Int) ≤ ((j + 1 : Nat) : Int)
    omega
  -- head shape, sequence check, and the flattened content
  have hmpsne : mps ≠ [] := by
    rw [← List.length_pos, hlenmps, hN]
    exact List.length_pos.mpr hcsne
  have hhead : mps.headI.total_parts = (N : Int) := by
    obtain ⟨c0, ct, hcse⟩ := List.exists_cons_of_ne_nil hcsne
    rw [hmps, hcse]
    simp [List.enum_cons, List.headI]
  have hseq : checkSeq (N : Int) 1 mps = .ok () := by
    refine checkSeq_ok (N : Int) mps 1 ?_
    intro k hk
    rw [hget k hk]
    refine ⟨?_, rfl⟩
    show ((k + 1 : Nat) : Int) = ((1 + k : Nat) : Int)
    omega
  have hflat : ((mps.map (fun q => q.content)).flatten) = content := by
    rw [hmps]
    rw [List.map_map]
    have : ((fun q : MultiPartMessagePart => q.content) ∘ (fun ic : Nat × Bytes =>
        ({ message_id := mid
         , part_number := ((ic.1 + 1 : Nat) : Int)
         , total_parts := ((chunksOf p content).length : Int)
         , content := ic.2
         , complete_message_hash := sha256Hex content } : MultiPartMessagePart)))
        = Prod.snd := rfl
    rw [this, List.enum_map_snd]
    exact chunksOf_flatten p hp content
  -- now run the function
  unfold EnvelopeFactory.reconstruct_content_from_chunks
  rw [if_neg (by simp [List.isEmpty_iff, hesne])]
  rw [collectParts_none_ok _ mid (sha256Hex content) hesne
    (mem_partEnvelopesOf p mid content enc md)]
  rw [exceptBind_ok]
  simp only [← hmpsdef, hsorted, hhead, hflat, hseq, exceptBind_ok, Option.elim]
  rw [if_neg (by rw [hlenmps]; simp)]
  simp only [decodeUtf8, hutf, if_pos, exceptBind_ok]
  rw [if_neg (by simp)]

theorem decodeUtf8_ok_inv (b c : Bytes) (h : decodeUtf8 b = .ok c) :
    validUTF8 b = true ∧ c = b := by
  unfold decodeUtf8 at h
  by_cases hv : validUTF8 b
  · rw [if_pos hv] at h
    injection h with h
    exact ⟨hv, h.symm⟩
  · rw [if_neg hv] at h
    exact absurd h (by simp)

theorem create_part_envelopes_empty (p : Nat) (hp : 0 < p) (mid ct : Bytes)
    (enc : Nat) (md : PyDict) (d : ContentDescriptor)
    (hd : MultipartStorage.store (p : Int) mid [] ct = .ok d) :
    MultipartStorage.create_part_envelopes (p : Int) [] d enc md =
      .error (.validationError (strBytes "Missing multipart metadata")) := by
  rw [multipart_store_eq p hp mid [] ct] at hd
  injection hd with hd
  subst hd
  have h0 : (([] : Bytes).length + p - 1) / p = 0 := by
    simp only [List.length_nil, Nat.zero_add]
    exact Nat.div_eq_of_lt (by omega)
  simp only [MultipartStorage.create_part_envelopes]
  rw [if_neg (by
    simp only [MultipartStorage.can_handle]
    rw [isPrefixOf_append_self]
    simp)]
  have hgetTP : dictGetD
      [ (strBytes "storage_provider", strBytes "multipart")
      , (strBytes "message_id", mid)
      , (strBytes "total_parts",
         intDecBytes (((([] : Bytes).length + p - 1) / p : Nat) : Int))
      , (strBytes "part_size", intDecBytes (p : Int)) ]
      (strBytes "total_parts") (strBytes "0")
      = intDecBytes (((([] : Bytes).length + p - 1) / p : Nat) : Int) := rfl
  simp only [hgetTP, pyInt_intDecBytes_ofNat, exceptBind_ok]
  rw [if_pos (by rw [h0]; simp)]

theorem sortParts_partEnvelopesOf (p : Nat) (mid content : Bytes) (enc : Nat) (md : PyDict) :
    sortByKey (fun q => q.part_number)
      ((partEnvelopesOf p mid content enc md).map (fun e => parseAsMPart e.message))
    = (partEnvelopesOf p mid content enc md).map (fun e => parseAsMPart e.message) := by
  refine sortByKey_eq_self _ _ ?_
  rw [parts_of_partEnvelopesOf]
  rw [List.pairwise_iff_getElem]
  intro i j hi hj hij
  simp only [List.getElem_map, List.getElem_enum]
  show ((i + 1 : Nat) : Int) ≤ ((j + 1 : Nat) : Int)
  omega

theorem flatten_partEnvelopesOf (p : Nat) (hp : 0 < p) (mid content : Bytes)
    (enc : Nat) (md : PyDict) :
    (((partEnvelopesOf p mid content enc md).map (fun e => parseAsMPart e.message)).map
      (fun q => q.content)).flatten = content := by
  rw [parts_of_partEnvelopesOf, List.map_map]
  have hcomp : ((fun q : MultiPartMessagePart => q.content) ∘ (fun ic : Nat × Bytes =>
      ({ message_id := mid
       , part_number := ((ic.1 + 1 : Nat) : Int)
       , total_parts := ((chunksOf p content).length : Int)
       , content := ic.2
       , complete_message_hash := sha256Hex content } : MultiPartMessagePart)))
      = Prod.snd := rfl
  rw [hcomp, List.enum_map_snd]
  exact chunksOf_flatten p hp content

theorem partEnvelopesOf_length (p : Nat) (hp : 0 < p) (mid content : Bytes)
    (enc : Nat) (md : PyDict) (hc : content ≠ []) :
    (partEnvelopesOf p mid content enc md).length = (content.length + p - 1) / p := by
  simp only [partEnvelopesOf, List.length_map, List.enum_length]
  exact chunksOf_length p hp content hc

theorem partEnvelopesOf_numbers (p : Nat) (mid content : Bytes) (enc : Nat) (md : PyDict) :
    (partEnvelopesOf p mid content enc md).map
        (fun e => (parseAsMPart e.message).part_number)
      = (List.range (partEnvelopesOf p mid content enc md).length).map
          (fun k => ((k + 1 : Nat) : Int)) := by
  have h1 : (partEnvelopesOf p mid content enc md).map
      (fun e => (parseAsMPart e.message).part_number)
      = ((partEnvelopesOf p mid content enc md).map
          (fun e => parseAsMPart e.message)).map (fun q => q.part_number) := by
    rw [List.map_map]
    rfl
  rw [h1, parts_of_partEnvelopesOf, List.map_map]
  have h2 : ((fun q : MultiPartMessagePart => q.part_number) ∘ (fun ic : Nat × Bytes =>
      ({ message_id := mid
       , part_number := ((ic.1 + 1 : Nat) : Int)
       , total_parts := ((chunksOf p content).length : Int)
       , content := ic.2
       , complete_message_hash := sha256Hex content } : MultiPartMessagePart)))
      = (fun k : Nat => ((k + 1 : Nat) : Int)) ∘ Prod.fst := rfl
  rw [h2, ← List.map_map, List.enum_map_fst]
  simp [partEnvelopesOf]

theorem mem_partEnvelopesOf_total (p : Nat) (mid content : Bytes) (enc : Nat) (md : PyDict) :
    ∀ e ∈ partEnvelopesOf p mid content enc md,
      (parseAsMPart e.message).total_parts
        = ((partEnvelopesOf p mid content enc md).length : Int) := by
  intro e he
  simp only [partEnvelopesOf, List.mem_map] at he
  obtain ⟨ic, _, rfl⟩ := he
  simp only [partEnvelopesOf, List.length_map, List.enum_length]
  rfl

theorem find?_first_match {α : Type} (P : α → Bool) (pre : List α) (x : α) (post : List α)
    (hpre : ∀ t ∈ pre, P t = false) (hx : P x = true) :
    (pre ++ x :: post).find? P = some x := by
  induction pre with
  | nil =>
    rw [List.nil_append]
    exact List.find?_cons_of_pos _ hx
  | cons a t ih =>
    have ha : P a = false := hpre a (List.mem_cons_self _ _)
    rw [List.cons_append, List.find?_cons_of_neg _ (by simp [ha])]
    exact ih (fun t2 ht2 => hpre t2 (List.mem_cons_of_mem _ ht2))

theorem create_envelope_embedded_eq (max_envelope_size max_part_size : Int)
    (messageId content : Bytes) (contextReferences : List Bytes) (encryptionMode : Nat)
    (metadata : PyDict) (contentType : Bytes) (e : Envelope)
    (h : EnvelopeFactory.try_create_embedded_envelope max_envelope_size content
      contextReferences encryptionMode (EnvelopeFactory.mergedMetadata metadata) = some e) :
    EnvelopeFactory.create_envelope max_envelope_size max_part_size messageId content
      contextReferences encryptionMode metadata contentType = .ok (.envelope e) := by
  simp only [EnvelopeFactory.create_envelope, h]

theorem create_envelope_storage_eq (max_envelope_size max_part_size : Int)
    (messageId content : Bytes) (contextReferences : List Bytes) (encryptionMode : Nat)
    (metadata : PyDict) (contentType : Bytes)
    (h : EnvelopeFactory.try_create_embedded_envelope max_envelope_size content
      contextReferences encryptionMode (EnvelopeFactory.mergedMetadata metadata) = none) :
    EnvelopeFactory.create_envelope max_envelope_size max_part_size messageId content
      contextReferences encryptionMode metadata contentType =
      (MultipartStorage.store max_part_size messageId (encodeUtf8 content) contentType
        >>= fun descriptor =>
          MultipartStorage.create_part_envelopes max_part_size (encodeUtf8 content)
            descriptor encryptionMode (EnvelopeFactory.mergedMetadata metadata)
        >>= fun envs => .ok (.listEnvelopes envs)) := by
  simp only [EnvelopeFactory.create_envelope, h]

/-- C1: for every string content that the multipart-configured factory
chunks (content too large to embed, positive part size, a nonempty drawn
message id), feeding the produced envelope list back to
`reconstruct_content_from_chunks` returns exactly the original content. -/
theorem C1_multipart_roundtrip (max_envelope_size : Int) (p : Nat) (hp : 0 < p)
    (messageId content : Bytes) (contextReferences : List Bytes) (encryptionMode : Nat)
    (metadata : PyDict) (contentType : Bytes)
    (hmid : messageId ≠ []) (hutf : validUTF8 content = true) (envs : List Envelope)
    (h : EnvelopeFactory.create_envelope max_envelope_size (p : Int) messageId content
      contextReferences encryptionMode metadata contentType = .ok (.listEnvelopes envs)) :
    EnvelopeFactory.reconstruct_content_from_chunks envs = .ok content := by
  cases htry : EnvelopeFactory.try_create_embedded_envelope max_envelope_size content
      contextReferences encryptionMode (EnvelopeFactory.mergedMetadata metadata) with
  | some e =>
    rw [create_envelope_embedded_eq _ _ _ _ _ _ _ _ _ htry] at h
    exact absurd h (by simp)
  | none =>
    rw [create_envelope_storage_eq _ _ _ _ _ _ _ _ htry] at h
    simp only [encodeUtf8] at h
    by_cases hc : content = []
    · subst hc
      rw [multipart_store_eq p hp messageId [] contentType, exceptBind_ok] at h
      rw [create_part_envelopes_empty p hp messageId contentType encryptionMode
        (EnvelopeFactory.mergedMetadata metadata) _
        (multipart_store_eq p hp messageId [] contentType), exceptBind_error] at h
      exact absurd h (by simp)
    · rw [multipart_store_eq p hp messageId content contentType, exceptBind_ok] at h
      rw [multipart_create_eq p hp messageId content contentType encryptionMode
        (EnvelopeFactory.mergedMetadata metadata) hmid hc _
        (multipart_store_eq p hp messageId content contentType), exceptBind_ok] at h
      have henvs : envs = partEnvelopesOf p messageId content encryptionMode
          (EnvelopeFactory.mergedMetadata metadata) := by
        injection h with h2
        cases h2
        rfl
      rw [henvs]
      exact reconstruct_partEnvelopesOf p hp messageId content encryptionMode _ hmid hc hutf

/-- C1 witness: the 30-byte content chunked at part size 10 under a
50-byte envelope limit reconstructs to itself. -/
theorem C1_witness : EnvelopeFactory.reconstruct_content_from_chunks envs30 = .ok content30 :=
  C1_multipart_roundtrip 50 10 (by decide) (strBytes "m1") content30 []
    ENCRYPTION_PROTECTED [] plainText (by decide) (by decide) envs30 (by rfl)

set_option maxRecDepth 100000 in
/-- C2 counterexample: at the default configuration (1000-byte envelope
limit, 800-byte parts) the factory, given 1600 bytes of content, returns a
multipart envelope list - raising no `ValidationError` - in which every
envelope serializes to more than 1000 bytes. -/
theorem C2_counterexample :
    (match EnvelopeFactory.create_envelope 1000 800 uuidW content1600 []
        ENCRYPTION_PROTECTED [] plainText with
      | .ok (.listEnvelopes envs) =>
        decide (envs ≠ []) && envs.all (fun e => decide (1000 < envelopeWireSize e))
      | _ => false) = true := by rfl

/-- C2 as amended: the size bound holds exactly on the embedded path -
whenever `create_envelope` returns a single envelope, that envelope
serializes to at most `max_envelope_size` bytes and is a `CORE_MESSAGE`;
multipart part envelopes are never size-checked (see the counterexample)
and no `ValidationError` is raised for a too-small limit. -/
theorem C2_embedded_bound (max_envelope_size max_part_size : Int)
    (messageId content : Bytes) (contextReferences : List Bytes) (encryptionMode : Nat)
    (metadata : PyDict) (contentType : Bytes) (e : Envelope)
    (h : EnvelopeFactory.create_envelope max_envelope_size max_part_size messageId
      content contextReferences encryptionMode metadata contentType
      = .ok (.envelope e)) :
    (envelopeWireSize e : Int) ≤ max_envelope_size ∧ e.message_type = CORE_MESSAGE := by
  cases htry : EnvelopeFactory.try_create_embedded_envelope max_envelope_size content
      contextReferences encryptionMode (EnvelopeFactory.mergedMetadata metadata) with
  | some e2 =>
    rw [create_envelope_embedded_eq _ _ _ _ _ _ _ _ _ htry] at h
    have he : e = e2 := by
      injection h with h2
      cases h2
      rfl
    subst he
    unfold EnvelopeFactory.try_create_embedded_envelope at htry
    by_cases hsz : ((envelopeWireSize (EnvelopeFactory.embeddedCandidate content
        contextReferences encryptionMode (EnvelopeFactory.mergedMetadata metadata))) : Int)
        ≤ max_envelope_size
    · rw [if_pos hsz] at htry
      injection htry with htry
      subst htry
      exact ⟨hsz, rfl⟩
    · rw [if_neg hsz] at htry
      exact absurd htry (by simp)
  | none =>
    rw [create_envelope_storage_eq _ _ _ _ _ _ _ _ htry] at h
    cases hs : MultipartStorage.store max_part_size messageId (encodeUtf8 content)
        contentType with
    | error e2 =>
      rw [hs, exceptBind_error] at h
      exact absurd h (by simp)
    | ok d =>
      rw [hs, exceptBind_ok] at h
      cases hcp : MultipartStorage.create_part_envelopes max_part_size
          (encodeUtf8 content) d encryptionMode
          (EnvelopeFactory.mergedMetadata metadata) with
      | error e2 =>
        rw [hcp, exceptBind_error] at h
        exact absurd h (by simp)
      | ok envs =>
        rw [hcp, exceptBind_ok] at h
        exact absurd h (by simp)

/-- C2 witness: 50 bytes of content at the default limit come back as one
embedded `CORE_MESSAGE` envelope within the 1000-byte bound. -/
theorem C2_witness :
    (envelopeWireSize embedded50 : Int) ≤ 1000 ∧ embedded50.message_type = CORE_MESSAGE :=
  C2_embedded_bound 1000 800 uuidW (List.replicate 50 97) [] ENCRYPTION_PROTECTED []
    plainText embedded50 (by rfl)

/-- C6: `delete` on the blockchain-ledger store (EVM) and on the
ledger-memo store (XRPL) always raises - `NotImplementedError`, the
repository's realization of the spec's unsupported-operation error for an
immutable ledger - and never reports a deletion. -/
theorem C6_delete_unsupported : ∀ envelopeId : Bytes,
    XRPLEnvelopeStore.delete envelopeId = .error (.notImplementedError
      (strBytes "Envelope deletion not supported on immutable XRPL ledger")) ∧
    EVMEnvelopeStore.delete envelopeId = .error (.notImplementedError
      (strBytes "Envelope deletion not supported on immutable EVM blockchain")) ∧
    (∀ b : Bool, XRPLEnvelopeStore.delete envelopeId ≠ .ok b ∧
      EVMEnvelopeStore.delete envelopeId ≠ .ok b) :=
  fun _ => ⟨rfl, rfl, fun _ => ⟨fun h => by simp [XRPLEnvelopeStore.delete] at h,
    fun h => by simp [EVMEnvelopeStore.delete] at h⟩⟩

/-- C3 counterexample: a single part whose hash differs from its
`complete_message_hash` - one of the claim's listed violations - but whose
content is not valid UTF-8 makes `reconstruct_content_from_chunks` raise
`UnicodeDecodeError` (the decode precedes the hash comparison), not the
claimed `ValidationError`. -/
theorem C3_counterexample :
    EnvelopeFactory.reconstruct_content_from_chunks [invalidUtf8Envelope]
      = .error .unicodeDecodeError ∧
    sha256Hex [255] ≠ strBytes "00" := ⟨by rfl, by decide⟩

/-- C3 as amended: a successful reconstruction certifies every validation
of the protocol - all inputs are `MULTIPART_MESSAGE_PART` envelopes, the
parts share one `message_id` and one `complete_message_hash`, the sorted
part numbers are exactly `1..total_parts` with all `total_parts` equal to
the part count, and the returned value is the full UTF-8-valid
concatenation whose hex digest equals the shared hash.  Contrapositively,
any violation makes the function raise (a `ValidationError` except that
invalid UTF-8 surfaces as `UnicodeDecodeError` before the hash check), and
no partial data is ever returned. -/
theorem C3_reconstruct_sound (envelopes : List Envelope) (c : Bytes)
    (h : EnvelopeFactory.reconstruct_content_from_chunks envelopes = .ok c) :
    ∃ p0 ps, envelopes.map (fun e => parseAsMPart e.message) = p0 :: ps ∧
      (∀ e ∈ envelopes, e.message_type = MULTIPART_MESSAGE_PART) ∧
      (∀ q ∈ p0 :: ps, q.message_id = p0.message_id ∧
        q.complete_message_hash = p0.complete_message_hash) ∧
      (sortByKey (fun q => q.part_number) (p0 :: ps)).map (fun q => q.part_number)
        = (List.range (ps.length + 1)).map (fun k => ((k + 1 : Nat) : Int)) ∧
      (∀ q ∈ p0 :: ps, q.total_parts = ((ps.length + 1 : Nat) : Int)) ∧
      c = ((sortByKey (fun q => q.part_number) (p0 :: ps)).map
        (fun q => q.content)).flatten ∧
      validUTF8 c = true ∧
      sha256Hex c = p0.complete_message_hash := by
  rcases envelopes with _ | ⟨e0, erest⟩
  · exact absurd h (by simp [EnvelopeFactory.reconstruct_content_from_chunks])
  · unfold EnvelopeFactory.reconstruct_content_from_chunks at h
    rw [if_neg (by simp)] at h
    cases hcol : collectParts none [] (e0 :: erest) with
    | error e2 =>
      rw [hcol, exceptBind_error] at h
      exact absurd h (by simp)
    | ok pr =>
      obtain ⟨plist, ref⟩ := pr
      rw [hcol] at h
      simp only [exceptBind_ok] at h
      -- invert the first collection step
      simp only [collectParts] at hcol
      by_cases hty0 : e0.message_type = MULTIPART_MESSAGE_PART
      · rw [if_neg (by rw [hty0]; simp)] at hcol
        obtain ⟨hplist, href, hall⟩ := collectParts_some_inv erest _ _ _ _ _ hcol
        have hplist2 : plist =
            parseAsMPart e0.message :: erest.map (fun e => parseAsMPart e.message) := by
          simpa using hplist
        subst href
        refine ⟨parseAsMPart e0.message, erest.map (fun e => parseAsMPart e.message),
          by simp, ?_, ?_, ?_⟩
        · intro e he
          rcases List.mem_cons.mp he with he | he
          · subst he; exact hty0
          · exact (hall e he).1
        · intro q hq
          rcases List.mem_cons.mp hq with hq | hq
          · subst hq; exact ⟨rfl, rfl⟩
          · obtain ⟨e, he, rfl⟩ := List.mem_map.mp hq
            exact ⟨(hall e he).2.1, (hall e he).2.2⟩
        -- now the sort, the sequence check and the tail of the function
        rw [hplist2] at h
        cases hchk : checkSeq
            ((sortByKey (fun q => q.part_number) (parseAsMPart e0.message ::
              erest.map (fun e => parseAsMPart e.message))).headI).total_parts 1
            (sortByKey (fun q => q.part_number) (parseAsMPart e0.message ::
              erest.map (fun e => parseAsMPart e.message))) with
        | error e2 =>
          rw [hchk, exceptBind_error] at h
          exact absurd h (by simp)
        | ok u =>
          cases u
          rw [hchk] at h
          simp only [exceptBind_ok] at h
          set parts := sortByKey (fun q => q.part_number)
            (parseAsMPart e0.message :: erest.map (fun e => parseAsMPart e.message))
            with hpartsdef
          have hpartslen : parts.length = (erest.map
              (fun e => parseAsMPart e.message)).length + 1 := by
            rw [hpartsdef, sortByKey_length]
            simp
          by_cases hlen : (parts.length : Int) = parts.headI.total_parts
          · rw [if_neg (by rw [hlen]; simp)] at h
            cases hdec : decodeUtf8 ((parts.map (fun q => q.content)).flatten) with
            | error e2 =>
              rw [hdec, exceptBind_error] at h
              exact absurd h (by simp)
            | ok c2 =>
              rw [hdec] at h
              simp only [exceptBind_ok] at h
              obtain ⟨hvalid, hc2⟩ := decodeUtf8_ok_inv _ _ hdec
              by_cases hh : sha256Hex ((parts.map (fun q => q.content)).flatten)
                  = (some ((parseAsMPart e0.message).message_id,
                      (parseAsMPart e0.message).complete_message_hash)).elim [] Prod.snd
              · rw [if_neg (by rw [hh]; simp)] at h
                have hcc : c = c2 := by
                  injection h with h2
                  exact h2.symm
                have hinv := checkSeq_inv _ _ 1 hchk
                refine ⟨?_, ?_, ?_, ?_, ?_⟩
                · -- sorted part numbers are exactly 1..N
                  refine List.ext_get (by simp [hpartslen]) ?_
                  intro n h1 h2
                  rw [List.get_eq_getElem, List.get_eq_getElem]
                  simp only [List.getElem_map, List.getElem_range]
                  have hn := (hinv n (by
                    simp only [List.length_map] at h1
                    exact h1)).1
                  rw [List.get_eq_getElem] at hn
                  rw [hn]
                  omega
                · -- all totals equal the part count
                  intro q hq
                  have hq2 : q ∈ parts := by
                    rw [hpartsdef, sortByKey_mem]
                    exact hq
                  obtain ⟨n, hn⟩ := List.mem_iff_get.mp hq2
                  have ht := (hinv n.1 n.2).2
                  rw [hn] at ht
                  rw [ht, ← hlen, hpartslen]
                · -- the returned value is the full concatenation
                  rw [hcc, hc2]
                · exact hcc ▸ hc2 ▸ hvalid
                · rw [hcc, hc2]
                  simpa [Option.elim] using hh
              · rw [if_pos (by simpa using hh)] at h
                exact absurd h (by simp)
          · rw [if_pos (by simpa using hlen)] at h
            exact absurd h (by simp)
      · rw [if_pos (by simpa using hty0)] at hcol
        exact absurd hcol (by simp)

/-- C3 witness: the reconstruction of the three-part split of the 30-byte
content certifies every protocol condition. -/
theorem C3_witness :
    ∃ p0 ps, envs30.map (fun e => parseAsMPart e.message) = p0 :: ps ∧
      (∀ e ∈ envs30, e.message_type = MULTIPART_MESSAGE_PART) ∧
      (∀ q ∈ p0 :: ps, q.message_id = p0.message_id ∧
        q.complete_message_hash = p0.complete_message_hash) ∧
      (sortByKey (fun q => q.part_number) (p0 :: ps)).map (fun q => q.part_number)
        = (List.range (ps.length + 1)).map (fun k => ((k + 1 : Nat) : Int)) ∧
      (∀ q ∈ p0 :: ps, q.total_parts = ((ps.length + 1 : Nat) : Int)) ∧
      content30 = ((sortByKey (fun q => q.part_number) (p0 :: ps)).map
        (fun q => q.content)).flatten ∧
      validUTF8 content30 = true ∧
      sha256Hex content30 = p0.complete_message_hash :=
  C3_reconstruct_sound envs30 content30 (by rfl)

theorem contents_partEnvelopesOf (p : Nat) (mid content : Bytes) (enc : Nat) (md : PyDict) :
    (partEnvelopesOf p mid content enc md).map
        (fun e => (parseAsMPart e.message).content)
      = chunksOf p content := by
  have h1 : (partEnvelopesOf p mid content enc md).map
        (fun e => (parseAsMPart e.message).content)
      = ((partEnvelopesOf p mid content enc md).map
          (fun e => parseAsMPart e.message)).map (fun q => q.content) := by
    rw [List.map_map]
    rfl
  rw [h1, parts_of_partEnvelopesOf, List.map_map]
  have hcomp : ((fun q : MultiPartMessagePart => q.content) ∘ (fun ic : Nat × Bytes =>
      ({ message_id := mid
       , part_number := ((ic.1 + 1 : Nat) : Int)
       , total_parts := ((chunksOf p content).length : Int)
       , content := ic.2
       , complete_message_hash := sha256Hex content } : MultiPartMessagePart)))
      = Prod.snd := rfl
  rw [hcomp, List.enum_map_snd]

/-- C4: chunking a nonempty content of `L` bytes at positive part size `P`
produces exactly `ceil(L / P)` envelopes whose part numbers are exactly
`1..N`, all carrying `total_parts = N`, the same `message_id`, and the hex
digest of the whole content as `complete_message_hash`; the concatenation
of the sorted parts' content is the original content (so its hash matches),
and the descriptor's `content_hash` is the content digest. -/
theorem C4_chunk_completeness (p : Nat) (hp : 0 < p)
    (messageId content contentType : Bytes) (encryptionMode : Nat)
    (baseMetadata : PyDict) (hmid : messageId ≠ []) (hc : content ≠ []) :
    ∃ d envs,
      MultipartStorage.store (p : Int) messageId content contentType = .ok d ∧
      MultipartStorage.create_part_envelopes (p : Int) content d encryptionMode
        baseMetadata = .ok envs ∧
      envs.length = (content.length + p - 1) / p ∧
      envs.map (fun e => (parseAsMPart e.message).part_number)
        = (List.range envs.length).map (fun k => ((k + 1 : Nat) : Int)) ∧
      (∀ e ∈ envs, (parseAsMPart e.message).total_parts = (envs.length : Int) ∧
        (parseAsMPart e.message).message_id = messageId ∧
        e.message_type = MULTIPART_MESSAGE_PART ∧
        (parseAsMPart e.message).complete_message_hash = sha256Hex content) ∧
      ((sortByKey (fun q => q.part_number)
        (envs.map (fun e => parseAsMPart e.message))).map
          (fun q => q.content)).flatten = content ∧
      d.content_hash = sha256Digest content := by
  refine ⟨_, partEnvelopesOf p messageId content encryptionMode baseMetadata,
    multipart_store_eq p hp messageId content contentType,
    multipart_create_eq p hp messageId content contentType encryptionMode baseMetadata
      hmid hc _ (multipart_store_eq p hp messageId content contentType),
    partEnvelopesOf_length p hp messageId content encryptionMode baseMetadata hc,
    partEnvelopesOf_numbers p messageId content encryptionMode baseMetadata,
    ?_, ?_, rfl⟩
  · intro e he
    exact ⟨mem_partEnvelopesOf_total p _ _ _ _ e he,
      (mem_partEnvelopesOf p _ _ _ _ e he).2.1,
      (mem_partEnvelopesOf p _ _ _ _ e he).1,
      (mem_partEnvelopesOf p _ _ _ _ e he).2.2⟩
  · rw [sortParts_partEnvelopesOf]
    exact flatten_partEnvelopesOf p hp messageId content encryptionMode baseMetadata

/-- C4 witness: the spec's scenario B - 5000 bytes at 800-byte parts give
exactly 7 envelopes numbered 1..7 with `total_parts = 7`, one message id,
and the content's digest as shared hash. -/
theorem C4_witness :
    ∃ d envs,
      MultipartStorage.store (800 : Int) uuidW content5000 plainText = .ok d ∧
      MultipartStorage.create_part_envelopes (800 : Int) content5000 d
        ENCRYPTION_PROTECTED [] = .ok envs ∧
      envs.length = 7 ∧
      envs.map (fun e => (parseAsMPart e.message).part_number)
        = (List.range 7).map (fun k => ((k + 1 : Nat) : Int)) ∧
      (∀ e ∈ envs, (parseAsMPart e.message).total_parts = ((7 : Nat) : Int) ∧
        (parseAsMPart e.message).message_id = uuidW ∧
        e.message_type = MULTIPART_MESSAGE_PART ∧
        (parseAsMPart e.message).complete_message_hash = sha256Hex content5000) ∧
      ((sortByKey (fun q => q.part_number)
        (envs.map (fun e => parseAsMPart e.message))).map
          (fun q => q.content)).flatten = content5000 := by
  obtain ⟨d, envs, h1, h2, h3, h4, h5, h6, _⟩ :=
    C4_chunk_completeness 800 (by decide) uuidW content5000 plainText
      ENCRYPTION_PROTECTED [] (by decide)
      (by
        intro hnil
        have hlen := congrArg List.length hnil
        simp only [content5000, List.length_replicate, List.length_nil] at hlen
        exact absurd hlen (by decide))
  have h7 : envs.length = 7 := by
    rw [h3]
    simp only [content5000, List.length_replicate]
  exact ⟨d, envs, h1, h2, h7, by rw [← h7]; exact h4,
    fun e he => by have := h5 e he; rw [h7] at this; exact this, h6⟩

/-- C5 counterexample: a non-positive (zero) part size does not fail fast
with a `ValidationError` - `store` raises `ZeroDivisionError` from the
part-count floor division. -/
theorem C5_counterexample :
    MultipartStorage.store 0 (strBytes "m") [97] (strBytes "t")
      = .error .zeroDivisionError := rfl

/-- C5 as amended: the chunking part size is the backend's own
`max_part_size` constructor parameter, not derived from the factory's
`max_envelope_size`; splitting is sequential fixed-size - the chunks
concatenate back to the content, every chunk except possibly the last has
exactly `max_part_size` bytes and the last is nonempty and no longer - and
a zero part size raises `ZeroDivisionError` (not a `ValidationError`)
inside `store`. -/
theorem C5_chunk_sizing (p : Nat) (hp : 0 < p)
    (messageId content contentType : Bytes) (encryptionMode : Nat)
    (baseMetadata : PyDict) (hmid : messageId ≠ []) (hc : content ≠ []) :
    ∃ d envs,
      MultipartStorage.store (p : Int) messageId content contentType = .ok d ∧
      MultipartStorage.create_part_envelopes (p : Int) content d encryptionMode
        baseMetadata = .ok envs ∧
      (envs.map (fun e => (parseAsMPart e.message).content)).flatten = content ∧
      (∀ e ∈ envs.dropLast, (parseAsMPart e.message).content.length = p) ∧
      (∀ e ∈ envs, (parseAsMPart e.message).content.length ≤ p ∧
        (parseAsMPart e.message).content ≠ []) ∧
      (∀ mid2 content2 ct2 : Bytes,
        MultipartStorage.store (0 : Int) mid2 content2 ct2
          = .error .zeroDivisionError) := by
  refine ⟨_, partEnvelopesOf p messageId content encryptionMode baseMetadata,
    multipart_store_eq p hp messageId content contentType,
    multipart_create_eq p hp messageId content contentType encryptionMode baseMetadata
      hmid hc _ (multipart_store_eq p hp messageId content contentType),
    ?_, ?_, ?_, fun _ _ _ => rfl⟩
  · rw [contents_partEnvelopesOf]
    exact chunksOf_flatten p hp content
  · intro e he
    have hmem : (parseAsMPart e.message).content ∈ (chunksOf p content).dropLast := by
      rw [← contents_partEnvelopesOf p messageId content encryptionMode baseMetadata,
        ← List.map_dropLast]
      exact List.mem_map_of_mem _ he
    exact chunksOf_dropLast p hp content _ hmem
  · intro e he
    have hmem : (parseAsMPart e.message).content ∈ chunksOf p content := by
      rw [← contents_partEnvelopesOf p messageId content encryptionMode baseMetadata]
      exact List.mem_map_of_mem _ he
    exact chunksOf_mem p hp content _ hmem

/-- C5 witness: the 30-byte content at part size 10 - full-size chunks,
concatenation intact, and the zero-part-size `ZeroDivisionError`. -/
theorem C5_witness :
    ∃ d envs,
      MultipartStorage.store (10 : Int) (strBytes "m1") content30 plainText = .ok d ∧
      MultipartStorage.create_part_envelopes (10 : Int) content30 d
        ENCRYPTION_PROTECTED [] = .ok envs ∧
      (envs.map (fun e => (parseAsMPart e.message).content)).flatten = content30 ∧
      (∀ e ∈ envs.dropLast, (parseAsMPart e.message).content.length = 10) ∧
      (∀ e ∈ envs, (parseAsMPart e.message).content.length ≤ 10 ∧
        (parseAsMPart e.message).content ≠ []) ∧
      (∀ mid2 content2 ct2 : Bytes,
        MultipartStorage.store (0 : Int) mid2 content2 ct2
          = .error .zeroDivisionError) :=
  C5_chunk_sizing 10 (by decide) (strBytes "m1") content30 plainText
    ENCRYPTION_PROTECTED [] (by decide) (by decide)

set_option maxRecDepth 100000 in
/-- C7 counterexample: an envelope that serializes to 1121 bytes (over the
1024-byte memo cap) only because its metadata holds a huge `envelope_id`
value is let through to the network submission: the store overwrites that
key with a 64-character digest before the size check, shrinking the
envelope below the cap. -/
theorem C7_counterexample :
    1024 < envelopeWireSize shrinkingEnvelope ∧
    XRPLEnvelopeStore.storePreNetwork (strBytes "mainnet") shrinkingEnvelope
      = .networkSubmit
          (XRPLEnvelopeStore.stampedEnvelope (strBytes "mainnet") shrinkingEnvelope) :=
  ⟨by decide, by rfl⟩

/-- C7 as amended: whenever the envelope as stamped by the store
(`storage_backend`, `network`, `envelope_id` written into its metadata)
serializes to more than 1024 bytes, `store` fails before any network call
with a `StorageError` whose message mentions that the envelope is too
large for the XRPL memo. -/
theorem C7_memo_size_guard (network : Bytes) (envelope : Envelope)
    (h : 1024 < envelopeWireSize (XRPLEnvelopeStore.stampedEnvelope network envelope)) :
    ∃ m, XRPLEnvelopeStore.storePreNetwork network envelope
        = .failedBeforeNetwork (.storageError m) ∧
      containsSeq (strBytes "too large for XRPL memo") m = true := by
  simp only [XRPLEnvelopeStore.storePreNetwork]
  rw [if_pos h]
  refine ⟨_, rfl, ?_⟩
  exact containsSeq_append_left _ _ _ (containsSeq_append_left _ _ _ (by decide))

set_option maxRecDepth 100000 in
/-- C7 witness: the spec's scenario C - an envelope with a 1500-byte core
message stays over the cap after stamping and is rejected before the
network with the "too large for XRPL memo" storage error. -/
theorem C7_witness :
    ∃ m, XRPLEnvelopeStore.storePreNetwork (strBytes "mainnet") oversizeMemoEnvelope
        = .failedBeforeNetwork (.storageError m) ∧
      containsSeq (strBytes "too large for XRPL memo") m = true :=
  C7_memo_size_guard (strBytes "mainnet") oversizeMemoEnvelope (by decide)

/-- C8: composite content-storage dispatch - `can_handle` is true iff some
member's `can_handle` is true; `retrieve` delegates to the first member
whose `can_handle` matches and raises `ValidationError` when none does;
`store` always delegates to the first backend of the list. -/
theorem C8_composite_dispatch :
    (∀ (storages : List StorageBackend) (uri : Bytes),
      CompositeStorage.can_handle storages uri = true ↔
        ∃ s ∈ storages, s.canHandleFn uri = true) ∧
    (∀ (storages : List StorageBackend) (d : ContentDescriptor),
      (∀ s ∈ storages, s.canHandleFn d.uri = false) →
      CompositeStorage.retrieve storages d = .error (.validationError
        (strBytes "No storage backend can handle URI: " ++ d.uri))) ∧
    (∀ (pre : List StorageBackend) (s : StorageBackend) (post : List StorageBackend)
        (d : ContentDescriptor),
      (∀ t ∈ pre, t.canHandleFn d.uri = false) → s.canHandleFn d.uri = true →
      CompositeStorage.retrieve (pre ++ s :: post) d = s.retrieveFn d) ∧
    (∀ (s : StorageBackend) (rest : List StorageBackend) (content contentType : Bytes),
      CompositeStorage.store (s :: rest) content contentType
        = s.storeFn content contentType) := by
  refine ⟨?_, ?_, ?_, ?_⟩
  · intro storages uri
    simp [CompositeStorage.can_handle, List.any_eq_true]
  · intro storages d hnone
    unfold CompositeStorage.retrieve
    rw [List.find?_eq_none.mpr (fun s hs => by simp [hnone s hs])]
  · intro pre s post d hpre hs
    unfold CompositeStorage.retrieve
    rw [find?_first_match _ pre s post hpre hs]
  · intro s rest content contentType
    rfl

/-- C8 witness: a composite over the inline and multipart `can_handle`
predicates routes a `multipart://` descriptor to the second member, fails
with `ValidationError` when only the inline member is present, and writes
through the first member. -/
theorem C8_witness :
    CompositeStorage.can_handle [inlineBackendW, multipartBackendW]
        (strBytes "multipart://x") = true ∧
    CompositeStorage.retrieve [inlineBackendW, multipartBackendW] mpDescW
      = multipartBackendW.retrieveFn mpDescW ∧
    CompositeStorage.retrieve [inlineBackendW] mpDescW = .error (.validationError
      (strBytes "No storage backend can handle URI: " ++ mpDescW.uri)) ∧
    CompositeStorage.store [inlineBackendW, multipartBackendW] [1] [2]
      = inlineBackendW.storeFn [1] [2] := by
  refine ⟨?_, ?_, ?_, ?_⟩
  · exact (C8_composite_dispatch.1 [inlineBackendW, multipartBackendW]
      (strBytes "multipart://x")).mpr ⟨multipartBackendW, by simp, by decide⟩
  · exact C8_composite_dispatch.2.2.1 [inlineBackendW] multipartBackendW [] mpDescW
      (by intro t ht; simp only [List.mem_singleton] at ht; subst ht; decide) (by decide)
  · exact C8_composite_dispatch.2.1 [inlineBackendW] mpDescW
      (by intro t ht; simp only [List.mem_singleton] at ht; subst ht; decide)
  · exact C8_composite_dispatch.2.2.2 inlineBackendW [multipartBackendW] [1] [2]

/-- C9 counterexample: a composite over two stores named `cache` and
`ledger` that both miss raises the aggregate not-found error, but its
message - `Envelope 'abc' not found in any store` - names neither searched
store (the names go only to the logger). -/
theorem C9_counterexample :
    CompositeEnvelopeStore.retrieve
        [(strBytes "cache", nfStoreW), (strBytes "ledger", nfStoreW)] (strBytes "abc")
      = .error (.envelopeNotFoundError
          (strBytes "Envelope 'abc' not found in any store")) ∧
    containsSeq (strBytes "cache")
      (strBytes "Envelope 'abc' not found in any store") = false ∧
    containsSeq (strBytes "ledger")
      (strBytes "Envelope 'abc' not found in any store") = false :=
  ⟨by rfl, by decide, by decide⟩

/-- C9 as amended: `CompositeEnvelopeStore.retrieve` probes the member
stores in insertion order; when every member raises not-found it raises
`EnvelopeNotFoundError` stating the envelope was not found in any store
(without naming the stores); the first member that succeeds wins, not-found
errors of earlier members are skipped, and any other error propagates. -/
theorem C9_composite_retrieve :
    (∀ (stores : List (Bytes × EnvelopeStoreBackend)) (envelopeId : Bytes),
      (∀ pr ∈ stores, ∃ m, (pr.2).retrieveFn envelopeId
        = .error (.envelopeNotFoundError m)) →
      CompositeEnvelopeStore.retrieve stores envelopeId
        = .error (.envelopeNotFoundError
            (strBytes "Envelope '" ++ envelopeId
              ++ strBytes "' not found in any store"))) ∧
    (∀ (pre : List (Bytes × EnvelopeStoreBackend)) (nm : Bytes)
        (s : EnvelopeStoreBackend) (post : List (Bytes × EnvelopeStoreBackend))
        (envelopeId : Bytes) (e : Envelope),
      (∀ pr ∈ pre, ∃ m, (pr.2).retrieveFn envelopeId
        = .error (.envelopeNotFoundError m)) →
      s.retrieveFn envelopeId = .ok e →
      CompositeEnvelopeStore.retrieve (pre ++ (nm, s) :: post) envelopeId = .ok e) ∧
    (∀ (pre : List (Bytes × EnvelopeStoreBackend)) (nm : Bytes)
        (s : EnvelopeStoreBackend) (post : List (Bytes × EnvelopeStoreBackend))
        (envelopeId : Bytes) (m : Bytes),
      (∀ pr ∈ pre, ∃ m2, (pr.2).retrieveFn envelopeId
        = .error (.envelopeNotFoundError m2)) →
      s.retrieveFn envelopeId = .error (.storageError m) →
      CompositeEnvelopeStore.retrieve (pre ++ (nm, s) :: post) envelopeId
        = .error (.storageError m)) := by
  refine ⟨?_, ?_, ?_⟩
  · intro stores envelopeId
    induction stores with
    | nil => intro _; rfl
    | cons pr rest ih =>
      intro hall
      obtain ⟨nm, s⟩ := pr
      obtain ⟨m, hm⟩ := hall (nm, s) (List.mem_cons_self _ _)
      simp only [CompositeEnvelopeStore.retrieve]
      rw [hm]
      exact ih (fun pr2 h2 => hall pr2 (List.mem_cons_of_mem _ h2))
  · intro pre nm s post envelopeId e
    induction pre with
    | nil =>
      intro _ hs
      simp only [List.nil_append, CompositeEnvelopeStore.retrieve]
      rw [hs]
    | cons pr rest ih =>
      intro hpre hs
      obtain ⟨nm2, s2⟩ := pr
      obtain ⟨m, hm⟩ := hpre (nm2, s2) (List.mem_cons_self _ _)
      simp only [List.cons_append, CompositeEnvelopeStore.retrieve]
      rw [hm]
      exact ih (fun pr2 h2 => hpre pr2 (List.mem_cons_of_mem _ h2)) hs
  · intro pre nm s post envelopeId m
    induction pre with
    | nil =>
      intro _ hs
      simp only [List.nil_append, CompositeEnvelopeStore.retrieve]
      rw [hs]
    | cons pr rest ih =>
      intro hpre hs
      obtain ⟨nm2, s2⟩ := pr
      obtain ⟨m2, hm⟩ := hpre (nm2, s2) (List.mem_cons_self _ _)
      simp only [List.cons_append, CompositeEnvelopeStore.retrieve]
      rw [hm]
      exact ih (fun pr2 h2 => hpre pr2 (List.mem_cons_of_mem _ h2)) hs

/-- C9 witness: over `{cache, ledger}` both missing, the aggregate
not-found message results; with the first member missing and the second
holding the envelope, the second member's envelope is returned. -/
theorem C9_witness :
    CompositeEnvelopeStore.retrieve
        [(strBytes "cache", nfStoreW), (strBytes "ledger", nfStoreW)] (strBytes "e1")
      = .error (.envelopeNotFoundError
          (strBytes "Envelope '" ++ strBytes "e1"
            ++ strBytes "' not found in any store")) ∧
    CompositeEnvelopeStore.retrieve
        [(strBytes "cache", nfStoreW),
         (strBytes "ledger", ⟨fun _ => .ok invalidUtf8Envelope⟩)] (strBytes "e1")
      = .ok invalidUtf8Envelope := by
  constructor
  · exact C9_composite_retrieve.1 _ (strBytes "e1")
      (fun pr hpr => ⟨_, by
        rcases List.mem_cons.mp hpr with h | h
        · subst h; rfl
        · simp only [List.mem_singleton] at h; subst h; rfl⟩)
  · exact C9_composite_retrieve.2.1 [(strBytes "cache", nfStoreW)] (strBytes "ledger")
      ⟨fun _ => .ok invalidUtf8Envelope⟩ [] (strBytes "e1") invalidUtf8Envelope
      (fun pr hpr => ⟨_, by
        simp only [List.mem_singleton] at hpr; subst hpr; rfl⟩) rfl

/-- C10: with a multipart storage backend and content too large to embed,
`create_envelope_payload` always raises a `ValidationError` and never
returns a payload: `create_envelope` hands back the part envelopes as a
Python `list`, and the payload wrapper recognizes only an `Envelope`, a
`tuple` or a `set` before its unexpected-result-type error (the empty
content corner instead trips the missing-multipart-metadata
`ValidationError` inside the backend). -/
theorem C10_payload_multipart_rejected (max_envelope_size : Int) (p : Nat) (hp : 0 < p)
    (messageId content : Bytes) (contextReferences : List Bytes) (encryptionMode : Nat)
    (metadata : PyDict) (contentType : Bytes) (postfiatMetadata : PyDict)
    (hmid : messageId ≠ [])
    (hbig : EnvelopeFactory.try_create_embedded_envelope max_envelope_size content
      contextReferences encryptionMode (EnvelopeFactory.mergedMetadata metadata) = none) :
    ∃ m, EnvelopeFactory.create_envelope_payload max_envelope_size (p : Int) messageId
        content contextReferences encryptionMode metadata contentType postfiatMetadata
      = .error (.validationError m) := by
  have hres := create_envelope_storage_eq max_envelope_size (p : Int) messageId content
    contextReferences encryptionMode metadata contentType hbig
  simp only [encodeUtf8] at hres
  by_cases hc : content = []
  · subst hc
    rw [multipart_store_eq p hp messageId [] contentType, exceptBind_ok,
      create_part_envelopes_empty p hp messageId contentType encryptionMode
        (EnvelopeFactory.mergedMetadata metadata) _
        (multipart_store_eq p hp messageId [] contentType),
      exceptBind_error] at hres
    refine ⟨strBytes "Missing multipart metadata", ?_⟩
    unfold EnvelopeFactory.create_envelope_payload
    rw [hres, exceptBind_error]
  · rw [multipart_store_eq p hp messageId content contentType, exceptBind_ok,
      multipart_create_eq p hp messageId content contentType encryptionMode
        (EnvelopeFactory.mergedMetadata metadata) hmid hc _
        (multipart_store_eq p hp messageId content contentType),
      exceptBind_ok] at hres
    refine ⟨strBytes "Unexpected result type: <class 'list'>", ?_⟩
    unfold EnvelopeFactory.create_envelope_payload
    simp only [hres, exceptBind_ok]

/-- C10 witness: 20 bytes of content under a 10-byte limit with 5-byte
parts make `create_envelope_payload` raise a `ValidationError`. -/
theorem C10_witness :
    ∃ m, EnvelopeFactory.create_envelope_payload 10 5 (strBytes "m1")
        (List.replicate 20 97) [] ENCRYPTION_PROTECTED [] plainText []
      = .error (.validationError m) :=
  C10_payload_multipart_rejected 10 5 (by decide) (strBytes "m1")
    (List.replicate 20 97) [] ENCRYPTION_PROTECTED [] plainText [] (by decide) (by rfl)

end PF
